import Mathlib

/-!
Shallow embedding of the declarative configuration resolver of `w3plex`
(`src/w3plex/core/config.py` together with `AttrDict` from
`src/w3plex/utils/dist.py`), and proofs about the claims of the
specification.

Modelling conventions:
* Python objects with identity (dicts, lists) live in an explicit heap
  (`PState.heap`), addressed by `Nat`.  A `Val.vref a` is a pointer to the
  heap object at address `a`.  Scalars are immediate values.
* Constructed entities are opaque to the resolver beyond being non-dict
  values; they are modelled as `Val.ventity tag`.
* Python dicts are insertion-ordered association lists with unique keys:
  setting an existing key updates it in place, setting a fresh key appends,
  deleting removes the key.
* Fallible operations return `Except Err _`; a raised Python exception is an
  `Except.error`.
* The asynchronous `await` points of the source are sequential in the
  cooperative single-threaded model of the code, so the embedding is the
  corresponding sequential function.
-/

/-- Keys of Python dicts as used by the loader: string keys from the document
and integer keys written by list-element resolution callbacks
(`config.py` line 144, `collection[key] = val` with `key = i`). -/
inductive PKey where
  | str (s : String)
  | nat (n : Nat)
deriving DecidableEq, Repr

/-- Values manipulated by the loader: `None`, ints, strings, references to
heap objects (dicts and lists), and opaque constructed entities. -/
inductive Val where
  | vnone
  | vint (n : Int)
  | vstr (s : String)
  | vref (a : Nat)
  | ventity (tag : String)
deriving DecidableEq, Repr

/-- Heap objects: Python dicts (insertion ordered) and lists. -/
inductive Obj where
  | dict (entries : List (PKey × Val))
  | arr (items : List Val)
deriving DecidableEq, Repr

/-- One record of `unresolved_states` (`config.py` line 178):
`state = \x7b'parsed': AttrDict(), 'unresolved': 0, 'path': path\x7d`.
`parsed` is the heap address of the partially built `AttrDict`. -/
structure SubState where
  parsed : Nat
  unresolved : Int
  path : String
deriving DecidableEq, Repr

/-- A pending resolution callback (`config.py` lines 143-145): the closure
`callback(val)` writes `collection[key] = val` and decrements
`state['unresolved']`.  It is represented by the captured data: the heap
address of `collection`, the key, and the index of the captured state. -/
structure Callback where
  target : Nat
  key : PKey
  stateId : Nat
deriving DecidableEq, Repr

/-- The `_Resolver` (`config.py` lines 66-85): `_idx` maps names to resolved
values, `_later` is the pending-callback table (a `defaultdict(list)`;
every stored list is nonempty because entries are only created by appending
and are removed whole by `pop`). -/
structure Resolver where
  idx : List (String × Val)
  later : List (String × List Callback)
deriving DecidableEq, Repr

/-- The whole mutable state of one `parse` session: the heap, the created
subtree states, the resolver, the `unresolved_states` worklist (as indices
into `states`), and the `collections` side index
(`defaultdict(AttrDict)`, collection name to path-tail to entity). -/
structure PState where
  heap : List Obj
  states : List SubState
  resolver : Resolver
  unresolvedStates : List Nat
  collections : List (String × List (String × Val))
deriving DecidableEq, Repr

/-- Errors: the aggregate `ConfigError` of `parse` (line 216) carrying every
unresolved name, plus the Python runtime errors the code can raise
(`KeyError`, `IndexError`, `TypeError`), and fuel exhaustion of the
fixpoint-loop model (provably unreachable, see `splice_scan_resolver_eq`). -/
inductive Err where
  | configError (names : List String)
  | keyError
  | indexError
  | typeError
  | fuelExhausted
deriving DecidableEq, Repr

/-- Insertion-ordered dict update: existing key updated in place, fresh key
appended (Python dict assignment semantics). -/
def assocSet {κ : Type} [DecidableEq κ] {β : Type} : List (κ × β) → κ → β → List (κ × β)
  | [], k, v => [(k, v)]
  | (k', v') :: t, k, v => if k' = k then (k, v) :: t else (k', v') :: assocSet t k v

/-- Dict lookup (first occurrence). -/
def assocGet {κ : Type} [DecidableEq κ] {β : Type} : List (κ × β) → κ → Option β
  | [], _ => none
  | (k', v') :: t, k => if k' = k then some v' else assocGet t k

/-- Dict key removal (`dict.pop` / `del`): the key disappears entirely.  On
the unique-key lists that represent dicts this is ordinary deletion. -/
def assocRemove {κ : Type} [DecidableEq κ] {β : Type} (l : List (κ × β)) (k : κ) : List (κ × β) :=
  l.filter (fun p => decide (p.1 ≠ k))

/-- Split a path on dots, Python `str.split('.')`: the empty string gives
one empty segment. -/
def splitPathAux : List Char → List Char → List String
  | [], acc => [String.mk acc.reverse]
  | c :: cs, acc => if c = '.' then String.mk acc.reverse :: splitPathAux cs [] else splitPathAux cs (c :: acc)

def splitPath (s : String) : List String :=
  splitPathAux s.toList []

/-- Python `path.rsplit('.', 1)[-1]`: the final dot-separated segment. -/
def pathTail (s : String) : String :=
  (splitPath s).getLastD ""

/-- The reserved reference sigil `IMPORT_SIGN = '$'` (`config.py` line 29). -/
def IMPORT_SIGN : String := "$"

/-- The reserved constructor key `IMPORT_KEY = '__init__'` (line 28). -/
def IMPORT_KEY : String := "__init__"

/-- Python `value.startswith(IMPORT_SIGN)` for the one-character sigil. -/
def hasSign (s : String) : Bool :=
  match s.toList with
  | c :: _ => c = '$'
  | [] => false

/-- Python `value[len(IMPORT_SIGN):]`: strip the sigil. -/
def dropSign (s : String) : String :=
  String.mk (s.toList.drop 1)

/-- Python truthiness of the values the loader tests with `if entity:` and
`if node`: `None`, `0`, `''` and empty containers are falsy; a dangling
reference cannot arise in a parse session and is given `false`. -/
def truthy (σ : PState) : Val → Bool
  | .vnone => false
  | .vint n => decide (n ≠ 0)
  | .vstr s => decide (s ≠ "")
  | .ventity _ => true
  | .vref a =>
    match σ.heap.get? a with
    | some (.dict es) => !es.isEmpty
    | some (.arr xs) => !xs.isEmpty
    | none => false

/-- Python `isinstance(value, dict)` on a loader value (`AttrDict` is a
`dict` subclass, lists and entities are not dicts). -/
def is_dict (σ : PState) : Val → Bool
  | .vref a =>
    match σ.heap.get? a with
    | some (.dict _) => true
    | _ => false
  | _ => false

/-- Allocate a fresh heap object, returning its address. -/
def allocObj (o : Obj) (σ : PState) : Nat × PState :=
  (σ.heap.length, { σ with heap := σ.heap ++ [o] })

/-- `collection[key] = val` on the heap object at address `a`: dict
assignment or list item assignment (out-of-range list index raises
`IndexError`, a string key on a list raises `TypeError`). -/
def setAddrItem (σ : PState) (a : Nat) (k : PKey) (v : Val) : Except Err PState :=
  match σ.heap.get? a with
  | some (.dict es) => .ok { σ with heap := σ.heap.set a (.dict (assocSet es k v)) }
  | some (.arr xs) =>
    match k with
    | .nat i => if i < xs.length then .ok { σ with heap := σ.heap.set a (.arr (xs.set i v)) } else .error .indexError
    | .str _ => .error .typeError
  | none => .error .typeError

/-- `parent[key] = val` on a loader value (`TypeError` on a non-container,
mirroring Python subscript assignment on e.g. `None`). -/
def set_item (σ : PState) (v : Val) (k : PKey) (x : Val) : Except Err PState :=
  match v with
  | .vref a => setAddrItem σ a k x
  | _ => .error .typeError

/-- Subscript read `v[k]` (`KeyError` / `IndexError` / `TypeError` as in
Python). -/
def getItem (σ : PState) (v : Val) (k : PKey) : Except Err Val :=
  match v with
  | .vref a =>
    match σ.heap.get? a with
    | some (.dict es) =>
      match assocGet es k with
      | some x => .ok x
      | none => .error .keyError
    | some (.arr xs) =>
      match k with
      | .nat i =>
        match xs.get? i with
        | some x => .ok x
        | none => .error .indexError
      | .str _ => .error .typeError
    | none => .error .typeError
  | _ => .error .typeError

/-- `del v[k]` on a dict value: missing keys raise `KeyError`.  Neither
`ConfigTree` (`config.py` lines 221-234) nor `AttrDict`
(`dist.py` lines 97-101) overrides any mutation method, so this inherited
`dict.__delitem__` is exactly what runs on a published config tree. -/
def del_item (σ : PState) (v : Val) (k : PKey) : Except Err PState :=
  match v with
  | .vref a =>
    match σ.heap.get? a with
    | some (.dict es) =>
      if (assocGet es k).isSome then .ok { σ with heap := σ.heap.set a (.dict (assocRemove es k)) }
      else .error .keyError
    | some (.arr _) => .error .typeError
    | none => .error .typeError
  | _ => .error .typeError

/-- The state record at index `sid` (all indices created by `new_state` are
valid; the default is never reached in a parse session). -/
def getState (σ : PState) (sid : Nat) : SubState :=
  σ.states.getD sid ⟨0, 0, ""⟩

/-- `state['unresolved'] += d`. -/
def bumpUnresolved (σ : PState) (sid : Nat) (d : Int) : PState :=
  let st := getState σ sid
  { σ with states := σ.states.set sid { st with unresolved := st.unresolved + d } }

/-- Run one resolution callback (`config.py` lines 143-145):
`collection[key] = val; state['unresolved'] -= 1`. -/
def runCallback (cb : Callback) (v : Val) (σ : PState) : Except Err PState := do
  let σ ← setAddrItem σ cb.target cb.key v
  pure (bumpUnresolved σ cb.stateId (-1))

/-- Run a list of callbacks in order. -/
def runCallbacks : List Callback → Val → PState → Except Err PState
  | [], _, σ => .ok σ
  | cb :: t, v, σ => do
    let σ ← runCallback cb v σ
    runCallbacks t v σ

/-- `_Resolver.register` (`config.py` lines 71-74): store the value under the
key, then invoke every pending callback for the key in order, removing the
pending entry (`self._later.pop(key, [])`). -/
def register (k : String) (v : Val) (σ : PState) : Except Err PState :=
  let σ₁ := { σ with resolver := { idx := assocSet σ.resolver.idx k v, later := σ.resolver.later } }
  let cbs := (assocGet σ₁.resolver.later k).getD []
  let σ₂ := { σ₁ with resolver := { idx := σ₁.resolver.idx, later := assocRemove σ₁.resolver.later k } }
  runCallbacks cbs v σ₂

/-- Append a callback to the pending table (`self._later[value].append(callback)`,
with `defaultdict(list)` creating the entry on first use). -/
def laterAppend (l : List (String × List Callback)) (k : String) (cb : Callback) : List (String × List Callback) :=
  match assocGet l k with
  | some cbs => assocSet l k (cbs ++ [cb])
  | none => l ++ [(k, [cb])]

/-- `_Resolver.resolve_once_ready` (`config.py` lines 76-82): if the name is
registered invoke the callback at once and report `True`, otherwise enqueue
it and report `False`. -/
def resolve_once_ready (name : String) (cb : Callback) (σ : PState) : Except Err (Bool × PState) :=
  match assocGet σ.resolver.idx name with
  | some v => do
    let σ ← runCallback cb v σ
    pure (true, σ)
  | none => .ok (false, { σ with resolver := { idx := σ.resolver.idx, later := laterAppend σ.resolver.later name cb } })

/-- `_Resolver.get_unresolved` (`config.py` lines 84-85): the list of names
with pending callbacks. -/
def get_unresolved (r : Resolver) : List String :=
  r.later.map Prod.fst

/-- Outcome of a factory constructor: a constructed value, or the explicit
decline `raise SkipNode` (`config.py` lines 62-63, 131-132). -/
inductive FactoryResult where
  | made (v : Val)
  | skip
deriving Repr

/-- The `collection` slot of a factory entry: absent, a literal collection
name, or a classifier applied to the constructed node
(`config.py` lines 126-129). -/
inductive CollSpec where
  | fixed (s : String)
  | classify (f : Val → String)

/-- One entry of `_ConfigLoader._filters` as appended by `add_node`
(`config.py` line 107): `[flt, fn, collection]`.  The predicate receives the
current entries of the candidate dict and its path (a string pattern given
to `add_node` is wrapped into exactly such a predicate by `_regexp_flt`). -/
structure Factory where
  flt : List (PKey × Val) → String → Bool
  build : List (PKey × Val) → String → FactoryResult
  coll : Option CollSpec

/-- Truthiness of the `collection` slot in `if node and collection:`
(line 126): `None` and the empty literal name are falsy, a classifier
function is always truthy. -/
def collTruthy : Option CollSpec → Bool
  | none => false
  | some (.fixed s) => decide (s ≠ "")
  | some (.classify _) => true

/-- The collection name used for the side index: a literal name, or the
classifier applied to the node (`collection = collection(node)`). -/
def collName : Option CollSpec → Val → String
  | some (.fixed s), _ => s
  | some (.classify f), v => f v
  | none, _ => ""

/-- `collections[collection][path.rsplit('.', 1)[-1]] = node` (line 129),
including the preceding `if node and collection:` guard. -/
def collections_update (σ : PState) (c : Option CollSpec) (v : Val) (path : String) : PState :=
  if truthy σ v && collTruthy c then
    let name := collName c v
    let bucket := assocSet ((assocGet σ.collections name).getD []) (pathTail path) v
    { σ with collections := assocSet σ.collections name bucket }
  else σ

/-- The entries of the dict at address `a` (the argument `_get_node` passes
to each predicate; in a parse session `a` is always a dict). -/
def dictEntriesAt (σ : PState) (a : Nat) : List (PKey × Val) :=
  match σ.heap.get? a with
  | some (.dict es) => es
  | _ => []

/-- The LIFO scan of `_get_node` (`config.py` lines 117-133) over an already
reversed filter list: first matching factory wins, `SkipNode` falls through
to the next one, no match returns the dict itself. -/
def get_node_go : List Factory → Nat → String → PState → Val × PState
  | [], a, _, σ => (.vref a, σ)
  | f :: rest, a, path, σ =>
    if f.flt (dictEntriesAt σ a) path then
      match f.build (dictEntriesAt σ a) path with
      | .skip => get_node_go rest a path σ
      | .made v => (v, collections_update σ f.coll v path)
    else get_node_go rest a path σ

/-- `_ConfigLoader._get_node`: scan the registered factories last-registered
first (`self._filters[::-1]`). -/
def get_node (fs : List Factory) (a : Nat) (path : String) (σ : PState) : Val × PState :=
  get_node_go fs.reverse a path σ

mutual
/-- Input document trees (already parsed YAML): scalars, sequences and
mappings with string keys.  The mutual formulation (entries and items as
their own inductives) keeps every recursion structural. -/
inductive Doc where
  | dnone
  | dint (n : Int)
  | dstr (s : String)
  | ddict (es : DEntries)
  | dlist (its : DItems)

inductive DEntries where
  | nil
  | cons (k : String) (v : Doc) (t : DEntries)

inductive DItems where
  | nil
  | cons (v : Doc) (t : DItems)
end

mutual
/-- The input document annotated with the heap addresses of its container
objects.  The Python input objects exist before `parse` runs and list
elements are patched through these addresses, so the document must live in
the heap; the annotation keeps the recursion of the loader structural while
tracking object identity. -/
inductive ADoc where
  | anone
  | aint (n : Int)
  | astr (s : String)
  | adict (a : Nat) (es : AEntries)
  | alist (a : Nat) (its : AItems)

inductive AEntries where
  | nil
  | cons (k : String) (v : ADoc) (t : AEntries)

inductive AItems where
  | nil
  | cons (v : ADoc) (t : AItems)
end

/-- The loader value denoting an (annotated) input node: containers by
reference, scalars immediately. -/
def ADoc.toVal : ADoc → Val
  | .anone => .vnone
  | .aint n => .vint n
  | .astr s => .vstr s
  | .adict a _ => .vref a
  | .alist a _ => .vref a

/-- Entries of an annotated mapping as dict entries (used to build the heap
image of an input dict). -/
def AEntries.toPairs : AEntries → List (PKey × Val)
  | .nil => []
  | .cons k v t => (.str k, v.toVal) :: AEntries.toPairs t

def AItems.toVals : AItems → List Val
  | .nil => []
  | .cons v t => v.toVal :: AItems.toVals t

mutual
/-- Allocate the input document into the heap (the Python input objects all
exist before `parse` is called). -/
def allocDoc : Doc → PState → ADoc × PState
  | .dnone, σ => (.anone, σ)
  | .dint n, σ => (.aint n, σ)
  | .dstr s, σ => (.astr s, σ)
  | .ddict es, σ =>
    let (aes, σ) := allocEntries es σ
    let (a, σ) := allocObj (.dict aes.toPairs) σ
    (.adict a aes, σ)
  | .dlist its, σ =>
    let (ats, σ) := allocItems its σ
    let (a, σ) := allocObj (.arr ats.toVals) σ
    (.alist a ats, σ)

def allocEntries : DEntries → PState → AEntries × PState
  | .nil, σ => (.nil, σ)
  | .cons k v t, σ =>
    let (av, σ) := allocDoc v σ
    let (at_, σ) := allocEntries t σ
    (.cons k av at_, σ)

def allocItems : DItems → PState → AItems × PState
  | .nil, σ => (.nil, σ)
  | .cons v t, σ =>
    let (av, σ) := allocDoc v σ
    let (at_, σ) := allocItems t σ
    (.cons av at_, σ)
end

/-- `validate_relative_path` (`config.py` lines 32-40).  With no root
(`relative_path is None`) the first guard returns the value unchanged; the
filesystem-probing branch for a present root is outside the document model
and is never reached in this development, where `get_node_rel_path` is
constantly `None`. -/
def validate_relative_path (v : Val) (_root : Option String) : Val := v

/-- `validate_relative_import` (`config.py` lines 43-59).  Same situation:
with no root the first guard returns the value unchanged, and no call in
this development carries a root. -/
def validate_relative_import (v : Val) (_root : Option String) : Val := v

/-- `get_node_rel_path` (`config.py` lines 138-140): plain document mappings
carry no `__include_path__` attribute (that attribute is attached by the
YAML include machinery, which is out of scope), so the result is `None`. -/
def get_node_rel_path (_node : ADoc) (_root : Option String) : Option String := none

/-- `_resolve(collection, value, key, state)` (`config.py` lines 142-149):
when `value` is a reference string, bump the unresolved counter and ask the
resolver to patch `collection[key]` once the name is registered. -/
def resolve_step (target : Nat) (value : Val) (k : PKey) (sid : Nat) (σ : PState) : Except Err PState :=
  match value with
  | .vstr s =>
    if hasSign s then do
      let σ := bumpUnresolved σ sid 1
      let (_, σ) ← resolve_once_ready (dropSign s) ⟨target, k, sid⟩ σ
      pure σ
    else .ok σ
  | _ => .ok σ

/-- Create the state record of `_parse_cfg` (`config.py` line 178): a fresh
`AttrDict` for `parsed`, counter `0`, the subtree path. -/
def new_state (path : String) (σ : PState) : Nat × PState :=
  let (pa, σ₁) := allocObj (.dict []) σ
  (σ₁.states.length, { σ₁ with states := σ₁.states ++ [⟨pa, 0, path⟩] })

/-- `key in parsed` on the state dict at address `a`. -/
def dictHas (σ : PState) (a : Nat) (k : PKey) : Bool :=
  match σ.heap.get? a with
  | some (.dict es) => (assocGet es k).isSome
  | _ => false

/-- Python `str(key)` for a dict key used as a path segment. -/
def keyStr : PKey → String
  | .str s => s
  | .nat n => toString n

/-- `".".join([path, str(key)]) if path else str(key)` (line 153). -/
def joinPath (path : String) (k : PKey) : String :=
  if path = "" then keyStr k else path ++ "." ++ keyStr k

mutual
/-- `_parse_item` (`config.py` lines 151-171).  The dict branch inlines the
body of `_parse_cfg` (see `parse_cfg`, proved equal in
`parse_item_dict_eq`) so that the recursion stays structural: recurse into
the child mapping, and when the child yields a truthy non-dict entity,
register it under the child path; a `None` (deferred or falsy) child leaves
the original input mapping in place.  The list branch builds a fresh list
of element results and calls `_resolve` on the original list object for
each element; the string branch calls `_resolve` on the state dict. -/
def parse_item (fs : List Factory) (key : PKey) (v : ADoc) (sid : Nat) (path : String)
    (rel : Option String) (σ : PState) : Except Err (Val × PState) :=
  match v with
  | .anone => .ok (.vnone, σ)
  | .aint n => .ok (.vint n, σ)
  | .astr s => do
    let σ ← resolve_step (getState σ sid).parsed (.vstr s) key sid σ
    pure (.vstr s, σ)
  | .adict _ es => do
    let value_path := joinPath path key
    let rel₂ := match get_node_rel_path v rel with
      | some r => some r
      | none => rel
    let (sid₂, σ) := new_state value_path σ
    let σ ← parse_entries_go fs es sid₂ value_path rel₂ σ
    let (entity, σ) ←
      if (getState σ sid₂).unresolved = 0 then
        .ok (get_node fs (getState σ sid₂).parsed value_path σ)
      else
        .ok ((Val.vnone : Val), { σ with unresolvedStates := σ.unresolvedStates ++ [sid₂] })
    if truthy σ entity then do
      let σ ← if is_dict σ entity then .ok σ else register value_path entity σ
      pure (entity, σ)
    else
      pure (v.toVal, σ)
  | .alist a its => do
    let (parsed, σ) ← parse_list_go fs a its 0 sid path rel σ
    let (na, σ) := allocObj (.arr parsed) σ
    pure ((Val.vref na : Val), σ)

/-- The `for key, value in cfg.items()` loop of `_parse_cfg`
(lines 179-184): parse each item, and store it into the state dict unless a
synchronously fired callback already wrote that key. -/
def parse_entries_go (fs : List Factory) (es : AEntries) (sid : Nat) (path : String)
    (rel : Option String) (σ : PState) : Except Err PState :=
  match es with
  | .nil => .ok σ
  | .cons k dv rest => do
    let (v, σ) ← parse_item fs (.str k) dv sid path rel σ
    let pa := (getState σ sid).parsed
    let σ ←
      if dictHas σ pa (.str k) then .ok σ
      else set_item σ (.vref pa) (.str k) (validate_relative_import (validate_relative_path v rel) rel)
    parse_entries_go fs rest sid path rel σ

/-- The `for i, item in enumerate(value)` loop of the list branch
(lines 163-166): parse each element into the fresh list, then call
`_resolve` on the original list object at the element index. -/
def parse_list_go (fs : List Factory) (a : Nat) (its : AItems) (i : Nat) (sid : Nat)
    (path : String) (rel : Option String) (σ : PState) : Except Err (List Val × PState) :=
  match its with
  | .nil => .ok ([], σ)
  | .cons item rest => do
    let (pv, σ) ← parse_item fs (.nat i) item sid path rel σ
    let σ ← resolve_step a item.toVal (.nat i) sid σ
    let (pvs, σ) ← parse_list_go fs a rest (i + 1) sid path rel σ
    pure (pv :: pvs, σ)
end

/-- `_parse_cfg` (`config.py` lines 173-190): make a fresh state, run the
entry loop, then either run factory matching (counter zero) or record the
state for the fixpoint loop and answer `None`.  The `collections` default
of the source is never taken: every call inside `parse` shares the one
`collections` object, which lives in the session state here. -/
def parse_cfg (fs : List Factory) (es : AEntries) (path : String) (rel : Option String)
    (σ : PState) : Except Err (Val × PState) := do
  let (sid, σ) := new_state path σ
  let σ ← parse_entries_go fs es sid path rel σ
  if (getState σ sid).unresolved = 0 then
    .ok (get_node fs (getState σ sid).parsed path σ)
  else
    .ok ((Val.vnone : Val), { σ with unresolvedStates := σ.unresolvedStates ++ [sid] })

/-- The `parent = parent[item]` walk of the fixpoint loop
(`config.py` lines 203-205). -/
def walk_parent (σ : PState) : Val → List String → Except Err Val
  | v, [] => .ok v
  | v, s :: rest => do
    let v ← getItem σ v (.str s)
    walk_parent σ v rest

/-- One inner scan of the fixpoint loop (`config.py` lines 198-211): walk the
recorded states in order; a state whose counter reached zero is spliced into
the parent at its recorded path (factory matching first) and removed from
the worklist, the others are kept. -/
def splice_scan (fs : List Factory) (pend : List Nat) (root : Val) (σ : PState) :
    Except Err (List Nat × PState) :=
  match pend with
  | [] => .ok ([], σ)
  | sid :: rest =>
    if (getState σ sid).unresolved = 0 then do
      let segs := splitPath (getState σ sid).path
      let parent ← walk_parent σ root segs.dropLast
      let (node, σ) := get_node fs (getState σ sid).parsed (getState σ sid).path σ
      let σ ← set_item σ parent (.str (segs.getLastD "")) node
      splice_scan fs rest root σ
    else do
      let (remain, σ) ← splice_scan fs rest root σ
      .ok (sid :: remain, σ)

/-- The outer `while True` of `parse` (lines 197-213): scan, then stop when
the pending-name list equals the list captured before the loop.  The loop
of the source has no fuel; since a scan never touches the pending-callback
table (`splice_scan_resolver_eq`), the captured list always equals the current
one after the first scan, so the source loop runs exactly one scan and any
fuel of at least one models it exactly. -/
def fixpoint_loop (fs : List Factory) (fuel : Nat) (unresolved₀ : List String) (root : Val)
    (σ : PState) : Except Err PState :=
  match fuel with
  | 0 => .error .fuelExhausted
  | n + 1 => do
    let (remain, σ₁) ← splice_scan fs σ.unresolvedStates root σ
    let σ₁ := { σ₁ with unresolvedStates := remain }
    if unresolved₀ = get_unresolved σ₁.resolver then .ok σ₁
    else fixpoint_loop fs n unresolved₀ root σ₁

/-- `ConfigTree.__init__` (`config.py` lines 221-225): `dict(tree)` builds a
fresh dict with the entries of the resolved root (a shallow copy —
`AttrDict.__init__` delegates to `dict`); a non-dict root would make
`dict(tree)` raise.  The `_collections` attribute is the session
`collections` index, already part of the state. -/
def mk_config_tree (σ : PState) (v : Val) : Except Err (Val × PState) :=
  match v with
  | .vref a =>
    match σ.heap.get? a with
    | some (.dict es) =>
      let (na, σ₁) := allocObj (.dict es) σ
      .ok (.vref na, σ₁)
    | _ => .error .typeError
  | _ => .error .typeError

/-- The fresh session state of one `parse` call: empty heap image of the
caller side, no states, a fresh `_Resolver()`, empty worklist and
collections. -/
def init_pstate : PState := ⟨[], [], ⟨[], []⟩, [], []⟩

/-- `_ConfigLoader.parse` (`config.py` lines 135-218) on a root mapping:
allocate the input document, run the recursive descent from the root with
the empty path, run the fixpoint loop, and either raise the aggregate
`ConfigError` naming every name that still has pending callbacks or publish
the `ConfigTree`.  The result pairs the published tree value with the final
session state. -/
def parse (fs : List Factory) (d : DEntries) (cfg_path : String) : Except Err (Val × PState) :=
  let σ := init_pstate
  let (aes, σ) := allocEntries d σ
  let (rootA, σ) := allocObj (.dict aes.toPairs) σ
  let rootDoc : ADoc := .adict rootA aes
  do
    let (parsedv, σ) ← parse_cfg fs aes "" (get_node_rel_path rootDoc (some cfg_path)) σ
    let unresolved₀ := get_unresolved σ.resolver
    let σ ← fixpoint_loop fs (σ.unresolvedStates.length + 1) unresolved₀ parsedv σ
    let names := get_unresolved σ.resolver
    if names.isEmpty then mk_config_tree σ parsedv
    else .error (.configError names)

/-- Read a nested value from a parse result by following keys from the
published root (attribute access on an `AttrDict` reads the same entries). -/
def readPath (σ : PState) : Val → List PKey → Option Val
  | v, [] => some v
  | v, k :: rest =>
    match getItem σ v k with
    | .ok x => readPath σ x rest
    | .error _ => none

/-- Observer: follow a key path from the root of a successful parse. -/
def resultRead (r : Except Err (Val × PState)) (ks : List PKey) : Option Val :=
  match r with
  | .ok (v, σ) => readPath σ v ks
  | .error _ => none

/-- Observer: the heap object at an address after a successful parse. -/
def heapAt (r : Except Err (Val × PState)) (a : Nat) : Option Obj :=
  match r with
  | .ok (_, σ) => σ.heap.get? a
  | .error _ => none

/-- Observer: the subtree state records after a successful parse. -/
def statesOf (r : Except Err (Val × PState)) : List SubState :=
  match r with
  | .ok (_, σ) => σ.states
  | .error _ => []

/-- Observer: the resolver index after a successful parse. -/
def idxOf (r : Except Err (Val × PState)) : List (String × Val) :=
  match r with
  | .ok (_, σ) => σ.resolver.idx
  | .error _ => []

/-- The built-in generic entity factory (`config.py` lines 240-265) with its
predicate `_entity_filter` (presence of the constructor key) and classifier
`_get_entity_collection` taken from the source.  The constructor body
performs dynamic symbol loading and asynchronous construction, which is
outside the document model; it is abstracted as producing an opaque entity
with the given tag — the resolver only ever inspects the result through
`truthy` and `is_dict`, and for those every successfully constructed
non-dict entity behaves alike.  The classifier returns the empty name
because the opaque entity is an instance of none of the `COLLECTIONS`
classes (`config.py` lines 244-248). -/
def entity_factory_model (tag : String) : Factory :=
  ⟨fun es _ => (assocGet es (.str IMPORT_KEY)).isSome,
   fun _ _ => .made (.ventity tag),
   some (.classify (fun _ => ""))⟩

/-- A registered factory matching one exact path, as extension code can add
through `add_node` with a literal pattern (`config.py` lines 99-115); the
constructor again abstracted as an opaque entity. -/
def path_factory_model (name : String) (tag : String) : Factory :=
  ⟨fun _ p => p = name, fun _ _ => .made (.ventity tag), none⟩

/-- The Claim C1 document `\x7b a: \x7b x: "$c.y" \x7d, c: \x7b y: 42 \x7d \x7d`. -/
def doc_c1 : DEntries :=
  .cons "a" (.ddict (.cons "x" (.dstr "$c.y") .nil))
  (.cons "c" (.ddict (.cons "y" (.dint 42) .nil)) .nil)

/-- The C1 comparison document whose reference target is an entity
specification: `\x7b a: \x7b x: "$c" \x7d, c: \x7b __init__: "m" \x7d \x7d`. -/
def doc_c1e : DEntries :=
  .cons "a" (.ddict (.cons "x" (.dstr "$c") .nil))
  (.cons "c" (.ddict (.cons "__init__" (.dstr "m") .nil)) .nil)

/-- The Claim C2 document: `a` needs the forward reference `$b`, a factory
matches the deferred subtree `a`, and `c` references `$a`. -/
def doc_c2 : DEntries :=
  .cons "a" (.ddict (.cons "x" (.dstr "$b") .nil))
  (.cons "b" (.ddict (.cons "__init__" (.dstr "m") .nil))
  (.cons "c" (.ddict (.cons "y" (.dstr "$a") .nil)) .nil))

/-- The C2 document without the trailing reference: `a` is deferred, later
spliced, and its factory result is an entity. -/
def doc_c2a : DEntries :=
  .cons "a" (.ddict (.cons "x" (.dstr "$b") .nil))
  (.cons "b" (.ddict (.cons "__init__" (.dstr "m") .nil)) .nil)

/-- The Claim C3 document `\x7b xs: ["$b"], b: \x7b __init__: "m" \x7d \x7d`. -/
def doc_c3 : DEntries :=
  .cons "xs" (.dlist (.cons (.dstr "$b") .nil))
  (.cons "b" (.ddict (.cons "__init__" (.dstr "m") .nil)) .nil)

/-- The Claim C7 cyclic document `\x7b a: "$b", b: "$a" \x7d`. -/
def doc_c7 : DEntries :=
  .cons "a" (.dstr "$b") (.cons "b" (.dstr "$a") .nil)

/-- The Claim C8 document, reference first: `\x7b a: \x7b x: "$b" \x7d, b: entity \x7d`. -/
def doc_c8f : DEntries :=
  .cons "a" (.ddict (.cons "x" (.dstr "$b") .nil))
  (.cons "b" (.ddict (.cons "__init__" (.dstr "m") .nil)) .nil)

/-- The Claim C8 document, entity first: `\x7b b: entity, a: \x7b x: "$b" \x7d \x7d`. -/
def doc_c8b : DEntries :=
  .cons "b" (.ddict (.cons "__init__" (.dstr "m") .nil))
  (.cons "a" (.ddict (.cons "x" (.dstr "$b") .nil)) .nil)

/-- The Claim C10 document (the list-reference scenario again, kept separate
so each claim stands on its own definitions). -/
def doc_c10 : DEntries :=
  .cons "xs" (.dlist (.cons (.dstr "$b") .nil))
  (.cons "b" (.ddict (.cons "__init__" (.dstr "m") .nil)) .nil)

/-- A reference-free one-entry document used to instantiate hypotheses of
the general theorems at a concrete successful parse. -/
def doc_plain : DEntries := .cons "k" (.dint 1) .nil

/-- A single root entity document used by the Claim C9 witness. -/
def doc_c9 : DEntries := .cons "b" (.ddict (.cons "__init__" (.dstr "m") .nil)) .nil

/-- A value that is not a heap reference (in particular not a Mapping, under
any heap). -/
def NonRef (v : Val) : Prop := ∀ a : Nat, v ≠ .vref a

/-- Factories whose constructors only return scalar or entity values, never
a raw heap reference.  The modelled built-in factories satisfy this; it
rules out only constructors that return an alias of a document container. -/
def FacOk (fs : List Factory) : Prop :=
  ∀ f ∈ fs, ∀ es p v, f.build es p = .made v → NonRef v

/-- The registry part of the Claim C9 invariant: every value stored in the
resolver index is not a Mapping, and any heap reference among them points
into the allocated heap (so later allocations cannot change what it is). -/
def RegistryOk (σ : PState) : Prop :=
  ∀ q ∈ σ.resolver.idx, is_dict σ q.2 = false ∧ ∀ a, q.2 = Val.vref a → a < σ.heap.length

/-- Every created subtree state points its `parsed` dict into the allocated
heap. -/
def StatesValid (σ : PState) : Prop :=
  ∀ st ∈ σ.states, st.parsed < σ.heap.length

/-- The session invariant behind Claim C9. -/
def SessionInv (σ : PState) : Prop :=
  RegistryOk σ ∧ StatesValid σ

/-- Heap evolution during a parse session: the heap only grows, and an
allocated list object stays a list (heap objects never change kind). -/
def HeapKindsLE (σ σ' : PState) : Prop :=
  σ.heap.length ≤ σ'.heap.length ∧
  ∀ a xs, σ.heap.get? a = some (Obj.arr xs) → ∃ xs', σ'.heap.get? a = some (Obj.arr xs')

/-- One session step: the invariant is preserved, the heap grows
kind-preservingly, and states are only added. -/
def StepTo (σ σ' : PState) : Prop :=
  (SessionInv σ → SessionInv σ') ∧ HeapKindsLE σ σ' ∧ σ.states.length ≤ σ'.states.length

/-- Evolution from an invariant-holding state: the target satisfies the
invariant, the heap grew kind-preservingly and states were only added. -/
def EvTo (σ σ' : PState) : Prop :=
  SessionInv σ' ∧ HeapKindsLE σ σ' ∧ σ.states.length ≤ σ'.states.length

/-- Attempt a key assignment on the tree published by a parse run (the
operation a consumer performs as `tree[key] = value`; `ConfigTree` and
`AttrDict` inherit it unchanged from `dict`). -/
def mutate_after_parse (r : Except Err (Val × PState)) (k : PKey) (x : Val) :
    Except Err (Val × PState) :=
  match r with
  | .ok (t, σ) => (set_item σ t k x).map (fun σ2 => (t, σ2))
  | .error e => .error e

/-- The final session state of `parse [] doc_plain "p"` (the reference-free
run used to instantiate general theorems at a concrete published tree). -/
def run_plain_state : PState :=
  ⟨[.dict [(.str "k", .vint 1)], .dict [(.str "k", .vint 1)], .dict [(.str "k", .vint 1)]],
   [⟨1, 0, ""⟩], ⟨[], []⟩, [], []⟩

/-- The final session state of `parse [entity_factory_model "E9"] doc_c9 "p"`
(one registered entity in the index). -/
def run_c9_state : PState :=
  ⟨[.dict [(.str "__init__", .vstr "m")], .dict [(.str "b", .vref 0)],
    .dict [(.str "b", .ventity "E9")], .dict [(.str "__init__", .vstr "m")],
    .dict [(.str "b", .ventity "E9")]],
   [⟨2, 0, ""⟩, ⟨3, 0, "b"⟩], ⟨[("b", .ventity "E9")], []⟩, [],
   [("", [("b", .ventity "E9")])]⟩

/-- A resolver state with two callbacks pending for the name `k`, used to
instantiate the register contract at a concrete input. -/
def reg_witness_pre : PState :=
  ⟨[.dict []], [⟨0, 2, ""⟩], ⟨[], [("k", [⟨0, .str "a", 0⟩, ⟨0, .str "b", 0⟩])]⟩, [], []⟩

/-- The state after `register "k" 1` on `reg_witness_pre`: value stored,
both callbacks fired once in order, pending entry gone. -/
def reg_witness_post : PState :=
  ⟨[.dict [(.str "a", .vint 1), (.str "b", .vint 1)]], [⟨0, 0, ""⟩],
   ⟨[("k", .vint 1)], []⟩, [], []⟩

/-- The conclusion of the amended Claim C4 at a dict address: assignment
succeeds and reads back, deletion of a present key succeeds and the key is
gone — the published tree is an ordinary mutable mapping. -/
def mutable_tree_post (σ : PState) (a : Nat) (es : List (PKey × Val)) (k : PKey) (v : Val) :
    Prop :=
  (set_item σ (.vref a) k v = .ok { σ with heap := σ.heap.set a (.dict (assocSet es k v)) } ∧
   getItem { σ with heap := σ.heap.set a (.dict (assocSet es k v)) } (.vref a) k = .ok v) ∧
  ((assocGet es k).isSome = true →
    del_item σ (.vref a) k = .ok { σ with heap := σ.heap.set a (.dict (assocRemove es k)) } ∧
    getItem { σ with heap := σ.heap.set a (.dict (assocRemove es k)) } (.vref a) k =
      .error .keyError)

theorem ebind_ok {α β : Type} {x : Except Err α} {f : α → Except Err β} {b : β}
    (h : x >>= f = .ok b) : ∃ a, x = .ok a ∧ f a = .ok b := by
  cases x with
  | ok a => exact ⟨a, rfl, h⟩
  | error e => exact absurd h (by simp [Bind.bind, Except.bind])

theorem assocGet_assocSet_self {κ β : Type} [DecidableEq κ] (l : List (κ × β)) (k : κ) (v : β) :
    assocGet (assocSet l k v) k = some v := by
  induction l with
  | nil => simp [assocSet, assocGet]
  | cons p t ih =>
    obtain ⟨k', v'⟩ := p
    by_cases h : k' = k <;> simp [assocSet, assocGet, h, ih]

theorem assocGet_assocRemove_self {κ β : Type} [DecidableEq κ] (l : List (κ × β)) (k : κ) :
    assocGet (assocRemove l k) k = none := by
  induction l with
  | nil => simp [assocRemove, assocGet]
  | cons p t ih =>
    obtain ⟨k', v'⟩ := p
    by_cases h : k' = k <;> simp [assocRemove, assocGet, h] at ih ⊢ <;> simp [ih, h]

theorem mem_assocSet {κ β : Type} [DecidableEq κ] {l : List (κ × β)} {k : κ} {v : β} {q : κ × β}
    (h : q ∈ assocSet l k v) : q ∈ l ∨ q = (k, v) := by
  induction l with
  | nil => simp [assocSet] at h; simp [h]
  | cons p t ih =>
    obtain ⟨k', v'⟩ := p
    by_cases hk : k' = k <;> simp [assocSet, hk] at h
    · rcases h with h | h
      · right; simp [h]
      · left; simp [h]
    · rcases h with h | h
      · left; simp [h]
      · rcases ih h with h' | h'
        · left; simp [h']
        · right; exact h'

theorem get_node_go_ctl (fs : List Factory) (a : Nat) (p : String) (σ : PState) :
    (get_node_go fs a p σ).2.heap = σ.heap ∧ (get_node_go fs a p σ).2.states = σ.states ∧
    (get_node_go fs a p σ).2.resolver = σ.resolver ∧
    (get_node_go fs a p σ).2.unresolvedStates = σ.unresolvedStates := by
  induction fs with
  | nil => simp [get_node_go]
  | cons f rest ih =>
    by_cases hf : f.flt (dictEntriesAt σ a) p <;> simp [get_node_go, hf]
    · cases hb : f.build (dictEntriesAt σ a) p with
      | made v => simp [collections_update]; split <;> simp
      | skip => exact ih
    · exact ih

theorem get_node_ctl (fs : List Factory) (a : Nat) (p : String) (σ : PState) :
    (get_node fs a p σ).2.heap = σ.heap ∧ (get_node fs a p σ).2.states = σ.states ∧
    (get_node fs a p σ).2.resolver = σ.resolver ∧
    (get_node fs a p σ).2.unresolvedStates = σ.unresolvedStates :=
  get_node_go_ctl fs.reverse a p σ

theorem setAddrItem_ctl {σ : PState} {a : Nat} {k : PKey} {v : Val} {σ' : PState}
    (h : setAddrItem σ a k v = .ok σ') :
    σ'.states = σ.states ∧ σ'.resolver = σ.resolver ∧
    σ'.unresolvedStates = σ.unresolvedStates ∧ σ'.collections = σ.collections := by
  unfold setAddrItem at h
  split at h
  · cases h; simp
  · split at h
    · split at h
      · cases h; simp
      · cases h
    · cases h
  · cases h

theorem set_item_ctl {σ : PState} {v : Val} {k : PKey} {x : Val} {σ' : PState}
    (h : set_item σ v k x = .ok σ') :
    σ'.states = σ.states ∧ σ'.resolver = σ.resolver ∧
    σ'.unresolvedStates = σ.unresolvedStates ∧ σ'.collections = σ.collections := by
  unfold set_item at h
  split at h
  · exact setAddrItem_ctl h
  · cases h

/-- An inner scan of the fixpoint loop never touches the resolver: factory
matching only updates `collections` and the splice writes only to the heap.
Hence the pending-callback table after a scan equals the one captured
before the loop, the source loop always stops after its first scan, and the
fuel of `fixpoint_loop` is never exhausted. -/
theorem splice_scan_resolver_eq (fs : List Factory) (pend : List Nat) (root : Val)
    (σ : PState) (r : List Nat × PState) (h : splice_scan fs pend root σ = .ok r) :
    r.2.resolver = σ.resolver := by
  induction pend generalizing σ r with
  | nil => cases h; rfl
  | cons sid rest ih =>
    unfold splice_scan at h
    split at h
    · obtain ⟨parent, hp, h⟩ := ebind_ok h
      obtain ⟨σ₂, hs, h⟩ := ebind_ok h
      have h1 := (get_node_go_ctl fs.reverse (getState σ sid).parsed (getState σ sid).path σ).2.2.1
      have h2 := (set_item_ctl hs).2.1
      rw [ih _ _ h, h2, h1]
    · obtain ⟨⟨remain, σ₁⟩, hs, h⟩ := ebind_ok h
      cases h
      exact ih _ (remain, σ₁) hs

/-- With the captured name list of `parse`, the fixpoint loop is exactly one
scan: the no-progress test compares the pending-name list captured before
the loop with the current one, and a scan never changes it. -/
theorem fixpoint_loop_eq_one_scan (fs : List Factory) (n : Nat) (root : Val) (σ : PState) :
    fixpoint_loop fs (n + 1) (get_unresolved σ.resolver) root σ =
      (splice_scan fs σ.unresolvedStates root σ).map
        (fun r => { r.2 with unresolvedStates := r.1 }) := by
  unfold fixpoint_loop
  cases hs : splice_scan fs σ.unresolvedStates root σ with
  | error e => simp [Bind.bind, Except.bind, Except.map]
  | ok r =>
    obtain ⟨remain, σ₁⟩ := r
    have hr := splice_scan_resolver_eq fs σ.unresolvedStates root σ (remain, σ₁) hs
    simp only at hr
    simp only [Bind.bind, Except.bind, Except.map]
    simp [hr]

/-- The dict branch of `parse_item` is the body of `parse_cfg` applied at the
child path, exactly as `_parse_item` calls `_parse_cfg` in the source; the
inlining in the definition only keeps the recursion structural. -/
theorem parse_item_dict_eq (fs : List Factory) (key : PKey) (a : Nat) (es : AEntries)
    (sid : Nat) (path : String) (rel : Option String) (σ : PState) :
    parse_item fs key (.adict a es) sid path rel σ = (do
      let (entity, σ') ← parse_cfg fs es (joinPath path key) rel σ
      if truthy σ' entity then do
        let σ'' ← if is_dict σ' entity then Except.ok σ' else register (joinPath path key) entity σ'
        pure (entity, σ'')
      else
        pure ((ADoc.adict a es).toVal, σ')) := by
  unfold parse_item parse_cfg
  cases hpe : parse_entries_go fs es (new_state (joinPath path key) σ).1 (joinPath path key) rel
      (new_state (joinPath path key) σ).2 with
  | error e => simp [Bind.bind, Except.bind, hpe, get_node_rel_path]
  | ok σ₂ =>
    by_cases h0 : (getState σ₂ (new_state (joinPath path key) σ).1).unresolved = 0 <;>
      simp [Bind.bind, Except.bind, hpe, h0, get_node_rel_path]

/-- Claim C1, counterexample: on the document of the claimed scenario,
`parse` does not return a tree at all — it raises the aggregate
configuration error naming `c.y`, because a plain Mapping such as `c` is
never registered and the reference `$c.y` therefore never resolves.  There
is no Config Tree in which `a.x` equals `42`. -/
theorem c1_counterexample :
    parse [entity_factory_model "E"] doc_c1 "cfg.yaml" = .error (.configError ["c.y"]) ∧
    resultRead (parse [entity_factory_model "E"] doc_c1 "cfg.yaml") [.str "a", .str "x"] = none := by
  constructor <;>
  simp [parse, init_pstate, doc_c1, allocEntries, allocDoc, allocItems, allocObj, AEntries.toPairs,
    ADoc.toVal, AItems.toVals, get_node_rel_path, parse_cfg, new_state, parse_entries_go,
    parse_item, parse_list_go, resolve_step, resolve_once_ready, laterAppend, register,
    runCallbacks, runCallback, setAddrItem, set_item, getItem, bumpUnresolved, getState, dictHas,
    joinPath, keyStr, truthy, is_dict, get_node, get_node_go, dictEntriesAt, collections_update,
    validate_relative_path, validate_relative_import, collTruthy, collName, pathTail, splitPath, splitPathAux, hasSign, dropSign, assocSet, assocGet,
    assocRemove, fixpoint_loop, splice_scan, walk_parent, get_unresolved, mk_config_tree,
    resultRead, readPath, heapAt, idxOf, entity_factory_model, path_factory_model, IMPORT_KEY,
    IMPORT_SIGN, Bind.bind, Except.bind, Pure.pure, Except.pure, Except.map]

/-- Claim C1, amended: for the all-plain document the reference `$c.y` can
never be satisfied — `parse` raises the aggregate configuration error
naming `c.y` and publishes no tree, because only constructed non-Mapping
entities are ever registered; when the referenced key is instead an entity
specification the reference does resolve to the constructed value. -/
theorem c1_amended :
    parse [entity_factory_model "E"] doc_c1 "cfg.yaml" = .error (.configError ["c.y"]) ∧
    resultRead (parse [entity_factory_model "E"] doc_c1e "cfg.yaml") [.str "a", .str "x"] =
      some (.ventity "E") := by
  constructor <;>
  simp [parse, init_pstate, doc_c1, doc_c1e, allocEntries, allocDoc, allocItems, allocObj,
    AEntries.toPairs, ADoc.toVal, AItems.toVals, get_node_rel_path, parse_cfg, new_state,
    parse_entries_go, parse_item, parse_list_go, resolve_step, resolve_once_ready, laterAppend,
    register, runCallbacks, runCallback, setAddrItem, set_item, getItem, bumpUnresolved, getState,
    dictHas, joinPath, keyStr, truthy, is_dict, get_node, get_node_go, dictEntriesAt,
    collections_update, validate_relative_path, validate_relative_import, collTruthy, collName, pathTail, splitPath, splitPathAux, hasSign, dropSign,
    assocSet, assocGet, assocRemove, fixpoint_loop, splice_scan, walk_parent, get_unresolved,
    mk_config_tree, resultRead, readPath, heapAt, idxOf, entity_factory_model, path_factory_model,
    IMPORT_KEY, IMPORT_SIGN, Bind.bind, Except.bind, Pure.pure, Except.pure, Except.map]

/-- Claim C2, counterexample: the deferred subtree `a` reaches counter zero
during the fixpoint loop, factory matching turns it into an Entity and the
result is spliced at path `a` — but it is not registered in the Reference
Registry, so the reference `$a` held by `c` is never satisfied and `parse`
fails, contradicting the claim that such results are registered so that
references to them can still be satisfied. -/
theorem c2_counterexample :
    parse [entity_factory_model "EB", path_factory_model "a" "EA"] doc_c2 "p" =
      .error (.configError ["a"]) := by
  simp [parse, init_pstate, doc_c2, allocEntries, allocDoc, allocItems, allocObj, AEntries.toPairs,
    ADoc.toVal, AItems.toVals, get_node_rel_path, parse_cfg, new_state, parse_entries_go,
    parse_item, parse_list_go, resolve_step, resolve_once_ready, laterAppend, register,
    runCallbacks, runCallback, setAddrItem, set_item, getItem, bumpUnresolved, getState, dictHas,
    joinPath, keyStr, truthy, is_dict, get_node, get_node_go, dictEntriesAt, collections_update,
    validate_relative_path, validate_relative_import, collTruthy, collName, pathTail, splitPath, splitPathAux, hasSign, dropSign, assocSet, assocGet,
    assocRemove, fixpoint_loop, splice_scan, walk_parent, get_unresolved, mk_config_tree,
    resultRead, readPath, heapAt, idxOf, entity_factory_model, path_factory_model, IMPORT_KEY,
    IMPORT_SIGN, Bind.bind, Except.bind, Pure.pure, Except.pure, Except.map]

/-- Claim C2, amended: for every recorded deferred subtree whose counter has
reached zero, the fixpoint loop performs factory matching and splices the
result into the parent structure at the recorded path, but it does not
register the result in the Reference Registry even when it is an Entity: in
this run the subtree `a` is spliced as the entity `EA`, while the registry
still holds only the entity `b` registered during the descent. -/
theorem c2_amended :
    resultRead (parse [entity_factory_model "EB", path_factory_model "a" "EA"] doc_c2a "p")
      [.str "a"] = some (.ventity "EA") ∧
    idxOf (parse [entity_factory_model "EB", path_factory_model "a" "EA"] doc_c2a "p") =
      [("b", .ventity "EB")] := by
  constructor <;>
  simp [parse, init_pstate, doc_c2a, allocEntries, allocDoc, allocItems, allocObj, AEntries.toPairs,
    ADoc.toVal, AItems.toVals, get_node_rel_path, parse_cfg, new_state, parse_entries_go,
    parse_item, parse_list_go, resolve_step, resolve_once_ready, laterAppend, register,
    runCallbacks, runCallback, setAddrItem, set_item, getItem, bumpUnresolved, getState, dictHas,
    joinPath, keyStr, truthy, is_dict, get_node, get_node_go, dictEntriesAt, collections_update,
    validate_relative_path, validate_relative_import, collTruthy, collName, pathTail, splitPath, splitPathAux, hasSign, dropSign, assocSet, assocGet,
    assocRemove, fixpoint_loop, splice_scan, walk_parent, get_unresolved, mk_config_tree,
    resultRead, readPath, heapAt, idxOf, entity_factory_model, path_factory_model, IMPORT_KEY,
    IMPORT_SIGN, Bind.bind, Except.bind, Pure.pure, Except.pure, Except.map]

/-- Claim C3: evaluation of the code at the failing input
`\x7b xs: ["$b"], b: entity \x7d`.  Both resolution callbacks for the list
element fire once `b` is registered, and the counters return to zero — but
the value lands in the original input list (heap address `0`) and in the
enclosing Mapping under the integer key `0`, while the list actually placed
in the resulting tree is the fresh copy at address `4`, which still holds
the literal sigil string `"$b"`.  The claim says the element position in
the resulting tree holds the referenced value; the code leaves the literal
there. -/
theorem c3_code_behavior :
    resultRead (parse [entity_factory_model "E3"] doc_c3 "p") [.str "xs", .nat 0] =
      some (.vstr "$b") ∧
    resultRead (parse [entity_factory_model "E3"] doc_c3 "p") [.str "xs"] = some (.vref 4) ∧
    heapAt (parse [entity_factory_model "E3"] doc_c3 "p") 0 = some (.arr [.ventity "E3"]) ∧
    resultRead (parse [entity_factory_model "E3"] doc_c3 "p") [.nat 0] = some (.ventity "E3") ∧
    statesOf (parse [entity_factory_model "E3"] doc_c3 "p") =
      [⟨3, 0, ""⟩, ⟨5, 0, "b"⟩] := by
  refine ⟨?_, ?_, ?_, ?_, ?_⟩ <;>
  simp [parse, init_pstate, doc_c3, allocEntries, allocDoc, allocItems, allocObj, AEntries.toPairs,
    ADoc.toVal, AItems.toVals, get_node_rel_path, parse_cfg, new_state, parse_entries_go,
    parse_item, parse_list_go, resolve_step, resolve_once_ready, laterAppend, register,
    runCallbacks, runCallback, setAddrItem, set_item, getItem, bumpUnresolved, getState, dictHas,
    joinPath, keyStr, truthy, is_dict, get_node, get_node_go, dictEntriesAt, collections_update,
    validate_relative_path, validate_relative_import, collTruthy, collName, pathTail, splitPath, splitPathAux, hasSign, dropSign, assocSet, assocGet,
    assocRemove, fixpoint_loop, splice_scan, walk_parent, get_unresolved, mk_config_tree,
    resultRead, readPath, heapAt, idxOf, statesOf, entity_factory_model, path_factory_model,
    IMPORT_KEY, IMPORT_SIGN, Bind.bind, Except.bind, Pure.pure, Except.pure, Except.map]

/-- Claim C8: with `a` holding the reference `$b` and `b` an entity
specification in the same root Mapping, `parse` substitutes the constructed
value of `b` at the reference position of `a`, whichever of the two is
declared first: forward references defer the subtree of `a` until `b`
registers, backward references fire the callback synchronously, and both
produce the same resolved tree entry, for every constructed entity. -/
theorem c8_forward_reference (s : String) :
    resultRead (parse [entity_factory_model s] doc_c8f "p") [.str "a", .str "x"] =
      some (.ventity s) ∧
    resultRead (parse [entity_factory_model s] doc_c8b "p") [.str "a", .str "x"] =
      some (.ventity s) := by
  constructor <;>
  simp [parse, init_pstate, doc_c8f, doc_c8b, allocEntries, allocDoc, allocItems, allocObj,
    AEntries.toPairs, ADoc.toVal, AItems.toVals, get_node_rel_path, parse_cfg, new_state,
    parse_entries_go, parse_item, parse_list_go, resolve_step, resolve_once_ready, laterAppend,
    register, runCallbacks, runCallback, setAddrItem, set_item, getItem, bumpUnresolved, getState,
    dictHas, joinPath, keyStr, truthy, is_dict, get_node, get_node_go, dictEntriesAt,
    collections_update, validate_relative_path, validate_relative_import, collTruthy,
    collName, pathTail, splitPath, splitPathAux, hasSign, dropSign,
    assocSet, assocGet, assocRemove, fixpoint_loop, splice_scan, walk_parent, get_unresolved,
    mk_config_tree, resultRead, readPath, heapAt, idxOf, entity_factory_model, path_factory_model,
    IMPORT_KEY, IMPORT_SIGN, Bind.bind, Except.bind, Pure.pure, Except.pure, Except.map]

/-- Claim C10: `parse` mutates the input document.  Before parsing, the
input list of `xs` sits at heap address `0` holding the literal `"$b"`;
after `parse` the very same input object holds the resolved entity (written
by the callback registered on the original list), a second callback wrote
the entity into the partially built parent Mapping under the integer index
`0`, and the list placed in the output tree is the freshly built copy at
address `4` — still holding the literal. -/
theorem c10_input_mutation :
    (allocEntries doc_c10 init_pstate).2.heap.get? 0 = some (.arr [.vstr "$b"]) ∧
    heapAt (parse [entity_factory_model "E10"] doc_c10 "p") 0 = some (.arr [.ventity "E10"]) ∧
    resultRead (parse [entity_factory_model "E10"] doc_c10 "p") [.str "xs"] = some (.vref 4) ∧
    heapAt (parse [entity_factory_model "E10"] doc_c10 "p") 4 = some (.arr [.vstr "$b"]) ∧
    resultRead (parse [entity_factory_model "E10"] doc_c10 "p") [.nat 0] =
      some (.ventity "E10") := by
  refine ⟨?_, ?_, ?_, ?_, ?_⟩ <;>
  simp [parse, init_pstate, doc_c10, allocEntries, allocDoc, allocItems, allocObj, AEntries.toPairs,
    ADoc.toVal, AItems.toVals, get_node_rel_path, parse_cfg, new_state, parse_entries_go,
    parse_item, parse_list_go, resolve_step, resolve_once_ready, laterAppend, register,
    runCallbacks, runCallback, setAddrItem, set_item, getItem, bumpUnresolved, getState, dictHas,
    joinPath, keyStr, truthy, is_dict, get_node, get_node_go, dictEntriesAt, collections_update,
    validate_relative_path, validate_relative_import, collTruthy,
    collName, pathTail, splitPath, splitPathAux, hasSign, dropSign, assocSet, assocGet,
    assocRemove, fixpoint_loop, splice_scan, walk_parent, get_unresolved, mk_config_tree,
    resultRead, readPath, heapAt, idxOf, entity_factory_model, path_factory_model,
    IMPORT_KEY, IMPORT_SIGN, Bind.bind, Except.bind, Pure.pure, Except.pure, Except.map]

/-- Claim C4, counterexample: on the tree published by a concrete parse run,
a mutation attempt does not fail — the assignment succeeds silently and the
new key reads back, because `ConfigTree` and `AttrDict` inherit every
mutation method from `dict` unchanged. -/
theorem c4_counterexample :
    (mutate_after_parse (parse [] doc_plain "p") (.str "z") (.vint 7)).isOk = true ∧
    resultRead (mutate_after_parse (parse [] doc_plain "p") (.str "z") (.vint 7)) [.str "z"] =
      some (.vint 7) := by
  constructor <;>
  simp [parse, init_pstate, doc_plain, allocEntries, allocDoc, allocItems, allocObj,
    AEntries.toPairs, ADoc.toVal, AItems.toVals, get_node_rel_path, parse_cfg, new_state,
    parse_entries_go, parse_item, parse_list_go, resolve_step, resolve_once_ready, laterAppend,
    register, runCallbacks, runCallback, setAddrItem, set_item, getItem, bumpUnresolved, getState,
    dictHas, joinPath, keyStr, truthy, is_dict, get_node, get_node_go, dictEntriesAt,
    collections_update, validate_relative_path, validate_relative_import, collTruthy,
    collName, pathTail, splitPath, splitPathAux, hasSign, dropSign, assocSet, assocGet,
    assocRemove, fixpoint_loop, splice_scan, walk_parent, get_unresolved, mk_config_tree,
    resultRead, readPath, heapAt, idxOf, mutate_after_parse, Except.isOk, Except.toBool,
    Except.map,
    entity_factory_model, path_factory_model, IMPORT_KEY, IMPORT_SIGN,
    Bind.bind, Except.bind, Pure.pure, Except.pure]

/-- Claim C4, amended: the published Config Tree is an ordinary mutable
mapping.  On any dict value — in particular a published tree — setting a
key succeeds and reads back, and deleting a present key succeeds and
removes it; no mutation raises. -/
theorem c4_amended (σ : PState) (a : Nat) (es : List (PKey × Val)) (k : PKey) (v : Val)
    (h : σ.heap.get? a = some (Obj.dict es)) : mutable_tree_post σ a es k v := by
  have h2 : ∀ o : Obj, (σ.heap.set a o).get? a = some o := by
    intro o; rw [List.get?_set_eq, h]; rfl
  unfold mutable_tree_post
  refine ⟨⟨?_, ?_⟩, fun hk => ⟨?_, ?_⟩⟩
  · simp only [set_item, setAddrItem, h]
  · simp only [getItem, h2, assocGet_assocSet_self]
  · simp only [del_item, h, hk, ite_true]
  · simp only [getItem, h2, assocGet_assocRemove_self]

/-- Claim C4, witness: the amended claim applied to the tree published by
`parse [] doc_plain "p"` (root address 2 of `run_plain_state`). -/
theorem c4_witness :
    run_plain_state.heap.get? 2 = some (.dict [(.str "k", .vint 1)]) ∧
    mutable_tree_post run_plain_state 2 [(.str "k", .vint 1)] (.str "k") (.vint 9) :=
  ⟨by decide, c4_amended run_plain_state 2 [(.str "k", .vint 1)] (.str "k") (.vint 9) (by decide)⟩

theorem runCallback_resolver {cb : Callback} {v : Val} {σ σ' : PState}
    (h : runCallback cb v σ = .ok σ') : σ'.resolver = σ.resolver := by
  unfold runCallback at h
  obtain ⟨σ₁, h1, h2⟩ := ebind_ok h
  have h2' : Except.ok (bumpUnresolved σ₁ cb.stateId (-1)) = Except.ok (ε := Err) σ' := h2
  cases h2'
  simpa [bumpUnresolved] using (setAddrItem_ctl h1).2.1

theorem runCallbacks_resolver {l : List Callback} {v : Val} {σ σ' : PState}
    (h : runCallbacks l v σ = .ok σ') : σ'.resolver = σ.resolver := by
  induction l generalizing σ with
  | nil => cases h; rfl
  | cons cb t ih =>
    unfold runCallbacks at h
    obtain ⟨σ₁, h1, h2⟩ := ebind_ok h
    rw [ih h2, runCallback_resolver h1]

/-- Claim C5: `register` stores the value under the name, then invokes
exactly the previously pending callbacks, each once and in enqueue order
(the fold equation), and clears the pending entry for the name; after a
successful `register` the stored value answers lookups and no callback is
pending, so re-registering the name overwrites the value and fires nothing
again (the pending-empty case collapses to a pure index update). -/
theorem c5_register (σ σ' : PState) (k : String) (v : Val) (h : register k v σ = .ok σ') :
    assocGet σ'.resolver.idx k = some v ∧
    assocGet σ'.resolver.later k = none ∧
    register k v σ =
      runCallbacks ((assocGet σ.resolver.later k).getD []) v
        ⟨σ.heap, σ.states, ⟨assocSet σ.resolver.idx k v, assocRemove σ.resolver.later k⟩,
         σ.unresolvedStates, σ.collections⟩ ∧
    ((assocGet σ.resolver.later k).getD [] = [] →
      σ' = ⟨σ.heap, σ.states, ⟨assocSet σ.resolver.idx k v, assocRemove σ.resolver.later k⟩,
            σ.unresolvedStates, σ.collections⟩) := by
  have h3 : register k v σ =
      runCallbacks ((assocGet σ.resolver.later k).getD []) v
        ⟨σ.heap, σ.states, ⟨assocSet σ.resolver.idx k v, assocRemove σ.resolver.later k⟩,
         σ.unresolvedStates, σ.collections⟩ := rfl
  rw [h3] at h
  have hres := runCallbacks_resolver h
  refine ⟨?_, ?_, h3, ?_⟩
  · rw [hres]; exact assocGet_assocSet_self _ _ _
  · rw [hres]; exact assocGet_assocRemove_self _ _
  · intro hnil
    rw [hnil] at h
    have h' : Except.ok (ε := Err)
        ⟨σ.heap, σ.states, ⟨assocSet σ.resolver.idx k v, assocRemove σ.resolver.later k⟩,
         σ.unresolvedStates, σ.collections⟩ = Except.ok σ' := h
    cases h'
    rfl

/-- Claim C5, witness: the register contract at a concrete state with two
pending callbacks; both fire once, in order, and the pending entry is
cleared. -/
theorem c5_register_witness :
    register "k" (.vint 1) reg_witness_pre = .ok reg_witness_post ∧
    assocGet reg_witness_post.resolver.idx "k" = some (.vint 1) ∧
    assocGet reg_witness_post.resolver.later "k" = none := by
  have h : register "k" (.vint 1) reg_witness_pre = .ok reg_witness_post := by
    simp [register, reg_witness_pre, reg_witness_post, runCallbacks, runCallback, setAddrItem,
      bumpUnresolved, getState, assocSet, assocGet, assocRemove, laterAppend,
      Bind.bind, Except.bind, Pure.pure, Except.pure]
  exact ⟨h, (c5_register _ _ _ _ h).1, (c5_register _ _ _ _ h).2.1⟩

/-- Claim C6: factory matching is last-registered-first.  On an empty
registry the node is returned unchanged, and for a registry with one more
factory appended (the latest registration), `_get_node` consults that
factory first: if its predicate matches and its constructor returns a
value, that value wins (with the collections side index updated); if the
constructor signals skip, or the predicate does not match, matching
continues with the earlier-registered factories; if every factory declines
the node is returned unchanged as plain configuration data. -/
theorem c6_lifo (fs : List Factory) (f : Factory) (a : Nat) (p : String) (σ : PState) :
    get_node [] a p σ = (.vref a, σ) ∧
    get_node (fs ++ [f]) a p σ =
      (if f.flt (dictEntriesAt σ a) p then
        match f.build (dictEntriesAt σ a) p with
        | .skip => get_node fs a p σ
        | .made v => (v, collections_update σ f.coll v p)
      else get_node fs a p σ) := by
  refine ⟨rfl, ?_⟩
  have hrev : (fs ++ [f]).reverse = f :: fs.reverse := by simp
  unfold get_node
  rw [hrev]
  rfl

theorem mk_config_tree_resolver {σ : PState} {v : Val} {r : Val × PState}
    (h : mk_config_tree σ v = .ok r) : r.2.resolver = σ.resolver := by
  cases v with
  | vref a =>
    simp only [mk_config_tree] at h
    cases hh : σ.heap.get? a with
    | none => rw [hh] at h; cases h
    | some o =>
      cases o with
      | dict es => rw [hh] at h; cases h; rfl
      | arr xs => rw [hh] at h; cases h
  | vnone => simp only [mk_config_tree] at h; cases h
  | vint n => simp only [mk_config_tree] at h; cases h
  | vstr s => simp only [mk_config_tree] at h; cases h
  | ventity t => simp only [mk_config_tree] at h; cases h

/-- Claim C7: for the cyclic document the fixpoint loop stabilizes with both
names still pending and `parse` raises the single aggregate configuration
error naming both `a` and `b`; and in general a successful `parse` is only
possible with an empty pending-callback table, so no Config Tree is ever
returned while some reference name is still pending. -/
theorem c7_cycle_error :
    parse [entity_factory_model "E"] doc_c7 "p" = .error (.configError ["b", "a"]) ∧
    (∀ (fs : List Factory) (d : DEntries) (p : String) (v : Val) (σ : PState),
      parse fs d p = .ok (v, σ) → σ.resolver.later = []) := by
  constructor
  · simp [parse, init_pstate, doc_c7, allocEntries, allocDoc, allocItems, allocObj, AEntries.toPairs,
      ADoc.toVal, AItems.toVals, get_node_rel_path, parse_cfg, new_state, parse_entries_go,
      parse_item, parse_list_go, resolve_step, resolve_once_ready, laterAppend, register,
      runCallbacks, runCallback, setAddrItem, set_item, getItem, bumpUnresolved, getState, dictHas,
      joinPath, keyStr, truthy, is_dict, get_node, get_node_go, dictEntriesAt, collections_update,
      validate_relative_path, validate_relative_import, collTruthy, collName, pathTail, splitPath,
      splitPathAux, hasSign, dropSign, assocSet, assocGet, assocRemove, fixpoint_loop, splice_scan,
      walk_parent, get_unresolved, mk_config_tree, resultRead, readPath, heapAt, idxOf,
      entity_factory_model, path_factory_model, IMPORT_KEY, IMPORT_SIGN,
      Bind.bind, Except.bind, Pure.pure, Except.pure, Except.map]
  · intro fs d p v σ h
    unfold parse at h
    obtain ⟨⟨pv, σ₁⟩, h1, h⟩ := ebind_ok h
    try dsimp only at h
    obtain ⟨σ₂, h2, h⟩ := ebind_ok h
    try dsimp only at h
    split at h
    · have hr := mk_config_tree_resolver h
      simp only at hr
      rename_i hcond
      rw [hr]
      revert hcond
      unfold get_unresolved
      cases σ₂.resolver.later with
      | nil => intro _; rfl
      | cons q t => intro hcond; simp at hcond
    · cases h

/-- Claim C7, witness: the general part applied at a concrete successful
parse — the published run has an empty pending table. -/
theorem c7_witness :
    parse [] doc_plain "p" = .ok (.vref 2, run_plain_state) ∧
    run_plain_state.resolver.later = [] := by
  have h : parse [] doc_plain "p" = .ok (.vref 2, run_plain_state) := by
    simp [parse, init_pstate, doc_plain, run_plain_state, allocEntries, allocDoc, allocItems,
      allocObj, AEntries.toPairs, ADoc.toVal, AItems.toVals, get_node_rel_path, parse_cfg,
      new_state, parse_entries_go, parse_item, parse_list_go, resolve_step, resolve_once_ready,
      laterAppend, register, runCallbacks, runCallback, setAddrItem, set_item, getItem,
      bumpUnresolved, getState, dictHas, joinPath, keyStr, truthy, is_dict, get_node, get_node_go,
      dictEntriesAt, collections_update, validate_relative_path, validate_relative_import,
      collTruthy, collName, pathTail, splitPath, splitPathAux, hasSign, dropSign, assocSet,
      assocGet, assocRemove, fixpoint_loop, splice_scan, walk_parent, get_unresolved,
      mk_config_tree, Bind.bind, Except.bind, Pure.pure, Except.pure, Except.map]
  exact ⟨h, c7_cycle_error.2 [] doc_plain "p" (.vref 2) run_plain_state h⟩

theorem mem_of_mem_set {α : Type} {l : List α} {i : Nat} {x a : α} (h : a ∈ l.set i x) :
    a ∈ l ∨ (a = x ∧ i < l.length) := by
  induction l generalizing i with
  | nil => simp at h
  | cons b t ih =>
    cases i with
    | zero =>
      rw [List.set] at h
      rcases List.mem_cons.mp h with h | h
      · right; exact ⟨h, by simp⟩
      · left; exact List.mem_cons_of_mem _ h
    | succ j =>
      simp [List.set] at h
      rcases h with h | h
      · left; simp [h]
      · rcases ih h with h' | h'
        · left; simp [h']
        · right; exact ⟨h'.1, by simp [h'.2]⟩

theorem getD_mem_of_lt {α : Type} {l : List α} {i : Nat} (d : α) (h : i < l.length) :
    l.getD i d ∈ l := by
  induction l generalizing i with
  | nil => simp at h
  | cons b t ih =>
    cases i with
    | zero => simp [List.getD]
    | succ j =>
      simp only [List.getD] at ih ⊢
      right
      exact ih (by simpa using h)

theorem heapKindsLE_refl (σ : PState) : HeapKindsLE σ σ :=
  ⟨Nat.le_refl _, fun _ xs h => ⟨xs, h⟩⟩

theorem heapKindsLE_of_eq {σ σ' : PState} (h : σ'.heap = σ.heap) : HeapKindsLE σ σ' :=
  ⟨by rw [h], fun a xs hh => ⟨xs, by rw [h]; exact hh⟩⟩

theorem heapKindsLE_trans {σ₁ σ₂ σ₃ : PState} (h1 : HeapKindsLE σ₁ σ₂) (h2 : HeapKindsLE σ₂ σ₃) :
    HeapKindsLE σ₁ σ₃ := by
  refine ⟨Nat.le_trans h1.1 h2.1, fun a xs hh => ?_⟩
  obtain ⟨xs', hh'⟩ := h1.2 a xs hh
  exact h2.2 a xs' hh'

theorem exists_get?_of_lt {l : List Obj} {a : Nat} (h : a < l.length) : ∃ o, l.get? a = some o := by
  cases hg : l.get? a with
  | none => exact absurd (List.get?_eq_none.mp hg) (by omega)
  | some o => exact ⟨o, rfl⟩

/-- A registered reference that is valid and not a dict points at a list. -/
theorem arr_of_valid_nondict {σ : PState} {a : Nat} (hlt : a < σ.heap.length)
    (hd : is_dict σ (.vref a) = false) : ∃ xs, σ.heap.get? a = some (Obj.arr xs) := by
  obtain ⟨o, ho⟩ := exists_get?_of_lt hlt
  cases o with
  | dict es => rw [is_dict, ho] at hd; simp at hd
  | arr xs => exact ⟨xs, ho⟩

theorem is_dict_false_of_nonref {σ : PState} {v : Val} (h : NonRef v) : is_dict σ v = false := by
  cases v with
  | vref a => exact absurd rfl (h a)
  | vnone => rfl
  | vint n => rfl
  | vstr s => rfl
  | ventity t => rfl

/-- Transport of the session invariant along a step that keeps the index and
the states and only grows the heap kind-preservingly. -/
theorem sessionInv_transport {σ σ' : PState} (hidx : σ'.resolver.idx = σ.resolver.idx)
    (hst : σ'.states = σ.states) (hk : HeapKindsLE σ σ') (h : SessionInv σ) : SessionInv σ' := by
  obtain ⟨hreg, hsv⟩ := h
  constructor
  · intro q hq
    rw [hidx] at hq
    obtain ⟨hqd, hqv⟩ := hreg q hq
    constructor
    · cases hv : q.2 with
      | vref a =>
        have hlt := hqv a hv
        rw [hv] at hqd
        obtain ⟨xs, hxs⟩ := arr_of_valid_nondict hlt hqd
        obtain ⟨xs', hxs'⟩ := hk.2 a xs hxs
        simp only [is_dict]
        rw [hxs']
      | vnone => rfl
      | vint n => rfl
      | vstr s => rfl
      | ventity t => rfl
    · intro a ha
      exact Nat.lt_of_lt_of_le (hqv a ha) hk.1
  · intro st hst'
    rw [hst] at hst'
    exact Nat.lt_of_lt_of_le (hsv st hst') hk.1

theorem stepTo_refl (σ : PState) : StepTo σ σ :=
  ⟨fun h => h, heapKindsLE_refl σ, Nat.le_refl _⟩

theorem stepTo_trans {σ₁ σ₂ σ₃ : PState} (h1 : StepTo σ₁ σ₂) (h2 : StepTo σ₂ σ₃) :
    StepTo σ₁ σ₃ :=
  ⟨fun h => h2.1 (h1.1 h), heapKindsLE_trans h1.2.1 h2.2.1, Nat.le_trans h1.2.2 h2.2.2⟩

theorem stepTo_of_parts {σ σ' : PState} (hr : σ'.resolver.idx = σ.resolver.idx)
    (hst : σ'.states = σ.states) (hk : HeapKindsLE σ σ') : StepTo σ σ' :=
  ⟨fun h => sessionInv_transport hr hst hk h, hk, by rw [hst]⟩

theorem setAddrItem_stepTo {σ : PState} {a : Nat} {k : PKey} {v : Val} {σ' : PState}
    (h : setAddrItem σ a k v = .ok σ') : StepTo σ σ' := by
  have hctl := setAddrItem_ctl h
  refine stepTo_of_parts (by rw [hctl.2.1]) hctl.1 ?_
  unfold setAddrItem at h
  split at h
  · rename_i es hd
    cases h
    refine ⟨by simp, fun b xs hb => ?_⟩
    by_cases hba : a = b
    · subst hba; rw [hd] at hb; cases hb
    · exact ⟨xs, by simp only [List.get?_set_ne _ _ hba]; exact hb⟩
  · rename_i xs hd
    split at h
    · rename_i i
      split at h
      · rename_i hi
        cases h
        refine ⟨by simp, fun b ys hb => ?_⟩
        by_cases hba : a = b
        · subst hba
          exact ⟨xs.set i v, by rw [List.get?_set_eq, hd]; rfl⟩
        · exact ⟨ys, by simp only [List.get?_set_ne _ _ hba]; exact hb⟩
      · cases h
    · cases h
  · cases h

theorem set_item_stepTo {σ : PState} {v : Val} {k : PKey} {x : Val} {σ' : PState}
    (h : set_item σ v k x = .ok σ') : StepTo σ σ' := by
  unfold set_item at h
  split at h
  · exact setAddrItem_stepTo h
  · cases h

theorem allocObj_stepTo (o : Obj) (σ : PState) : StepTo σ (allocObj o σ).2 := by
  refine stepTo_of_parts rfl rfl ⟨by simp [allocObj], fun b xs hb => ?_⟩
  have hlt : b < σ.heap.length := by
    by_contra hge
    rw [List.get?_eq_none.mpr (by omega)] at hb
    cases hb
  exact ⟨xs, by simp only [allocObj]; rw [List.get?_append hlt]; exact hb⟩

theorem bump_stepTo (σ : PState) (sid : Nat) (d : Int) : StepTo σ (bumpUnresolved σ sid d) := by
  refine ⟨fun hinv => ?_, heapKindsLE_of_eq rfl, by simp [bumpUnresolved]⟩
  obtain ⟨hreg, hsv⟩ := hinv
  constructor
  · exact fun q hq => hreg q hq
  · intro st hst
    simp only [bumpUnresolved] at hst
    rcases mem_of_mem_set hst with hst' | ⟨hst', hlt⟩
    · exact hsv st hst'
    · have hm : σ.states.getD sid ⟨0, 0, ""⟩ ∈ σ.states := getD_mem_of_lt _ hlt
      have := hsv _ hm
      simp only [hst', getState]
      exact this

theorem runCallback_stepTo {cb : Callback} {v : Val} {σ σ' : PState}
    (h : runCallback cb v σ = .ok σ') : StepTo σ σ' := by
  unfold runCallback at h
  obtain ⟨σ₁, h1, h2⟩ := ebind_ok h
  have h2' : Except.ok (bumpUnresolved σ₁ cb.stateId (-1)) = Except.ok (ε := Err) σ' := h2
  cases h2'
  exact stepTo_trans (setAddrItem_stepTo h1) (bump_stepTo σ₁ cb.stateId (-1))

theorem runCallbacks_stepTo {l : List Callback} {v : Val} {σ σ' : PState}
    (h : runCallbacks l v σ = .ok σ') : StepTo σ σ' := by
  induction l generalizing σ with
  | nil => cases h; exact stepTo_refl _
  | cons cb t ih =>
    unfold runCallbacks at h
    obtain ⟨σ₁, h1, h2⟩ := ebind_ok h
    exact stepTo_trans (runCallback_stepTo h1) (ih h2)

theorem register_stepTo {k : String} {v : Val} {σ σ' : PState}
    (hv : is_dict σ v = false) (hvalid : ∀ a, v = .vref a → a < σ.heap.length)
    (h : register k v σ = .ok σ') : StepTo σ σ' := by
  have hbase : StepTo σ
      ⟨σ.heap, σ.states, ⟨assocSet σ.resolver.idx k v, assocRemove σ.resolver.later k⟩,
       σ.unresolvedStates, σ.collections⟩ := by
    refine ⟨fun hinv => ⟨?_, hinv.2⟩, heapKindsLE_of_eq rfl, Nat.le_refl _⟩
    intro q hq
    rcases mem_assocSet hq with hq' | hq'
    · exact hinv.1 q hq'
    · rw [hq']
      exact ⟨hv, fun a ha => hvalid a ha⟩
  have h3 : register k v σ =
      runCallbacks ((assocGet σ.resolver.later k).getD []) v
        ⟨σ.heap, σ.states, ⟨assocSet σ.resolver.idx k v, assocRemove σ.resolver.later k⟩,
         σ.unresolvedStates, σ.collections⟩ := rfl
  rw [h3] at h
  exact stepTo_trans hbase (runCallbacks_stepTo h)

theorem resolve_once_ready_stepTo {name : String} {cb : Callback} {σ : PState}
    {r : Bool × PState} (h : resolve_once_ready name cb σ = .ok r) : StepTo σ r.2 := by
  unfold resolve_once_ready at h
  split at h
  · obtain ⟨σ₁, h1, h2⟩ := ebind_ok h
    have h2' : Except.ok (ε := Err) (true, σ₁) = Except.ok r := h2
    cases h2'
    exact runCallback_stepTo h1
  · cases h
    exact stepTo_of_parts rfl rfl (heapKindsLE_of_eq rfl)
theorem resolve_step_stepTo {target : Nat} {value : Val} {k : PKey} {sid : Nat} {σ σ' : PState}
    (h : resolve_step target value k sid σ = .ok σ') : StepTo σ σ' := by
  unfold resolve_step at h
  split at h
  · split at h
    · obtain ⟨⟨b, σ₁⟩, h1, h2⟩ := ebind_ok h
      have h2' : Except.ok (ε := Err) σ₁ = Except.ok σ' := h2
      cases h2'
      exact stepTo_trans (bump_stepTo σ sid 1) (resolve_once_ready_stepTo h1)
    · cases h
      exact stepTo_refl _
  · cases h
    exact stepTo_refl _

theorem new_state_stepTo (path : String) (σ : PState) : StepTo σ (new_state path σ).2 := by
  refine stepTo_trans (allocObj_stepTo (.dict []) σ) ?_
  refine ⟨fun hinv => ⟨hinv.1, ?_⟩, heapKindsLE_of_eq rfl, by simp [new_state]⟩
  intro st hst
  simp only [new_state] at hst
  rcases List.mem_append.mp hst with hst' | hst'
  · exact hinv.2 st hst'
  · have : st = ⟨(allocObj (Obj.dict []) σ).1, 0, path⟩ := by simpa using hst'
    rw [this]
    simp only [new_state, allocObj]
    simp

theorem get_node_stepTo (fs : List Factory) (a : Nat) (p : String) (σ : PState) :
    StepTo σ (get_node fs a p σ).2 := by
  have hctl := get_node_ctl fs a p σ
  exact stepTo_of_parts (by rw [hctl.2.2.1]) hctl.2.1 (heapKindsLE_of_eq hctl.1)

theorem get_node_go_result (fs : List Factory) (a : Nat) (p : String) (σ : PState) :
    (get_node_go fs a p σ).1 = .vref a ∨
    ∃ f ∈ fs, ∃ es q v, f.build es q = .made v ∧ (get_node_go fs a p σ).1 = v := by
  induction fs with
  | nil => left; rfl
  | cons f rest ih =>
    by_cases hf : f.flt (dictEntriesAt σ a) p
    · simp only [get_node_go, hf, if_true]
      cases hb : f.build (dictEntriesAt σ a) p with
      | skip =>
        rcases ih with ih' | ⟨g, hg, es, q, v, hgv, hres⟩
        · left; exact ih'
        · right; exact ⟨g, by simp [hg], es, q, v, hgv, hres⟩
      | made v =>
        right
        exact ⟨f, by simp, dictEntriesAt σ a, p, v, hb, rfl⟩
    · simp only [get_node_go, hf, if_false]
      rcases ih with ih' | ⟨g, hg, es, q, v, hgv, hres⟩
      · left; exact ih'
      · right; exact ⟨g, by simp [hg], es, q, v, hgv, hres⟩

theorem get_node_result (fs : List Factory) (a : Nat) (p : String) (σ : PState) :
    (get_node fs a p σ).1 = .vref a ∨
    ∃ f ∈ fs, ∃ es q v, f.build es q = .made v ∧ (get_node fs a p σ).1 = v := by
  rcases get_node_go_result fs.reverse a p σ with h | ⟨f, hf, es, q, v, hv, hres⟩
  · left; exact h
  · right; exact ⟨f, List.mem_reverse.mp hf, es, q, v, hv, hres⟩

theorem evTo_start {σ σ' : PState} (hinv : SessionInv σ) (s : StepTo σ σ') : EvTo σ σ' :=
  ⟨s.1 hinv, s.2.1, s.2.2⟩

theorem evTo_step {σ₁ σ₂ σ₃ : PState} (t : EvTo σ₁ σ₂) (s : StepTo σ₂ σ₃) : EvTo σ₁ σ₃ :=
  ⟨s.1 t.1, heapKindsLE_trans t.2.1 s.2.1, Nat.le_trans t.2.2 s.2.2⟩

theorem evTo_trans {σ₁ σ₂ σ₃ : PState} (t1 : EvTo σ₁ σ₂) (t2 : EvTo σ₂ σ₃) : EvTo σ₁ σ₃ :=
  ⟨t2.1, heapKindsLE_trans t1.2.1 t2.2.1, Nat.le_trans t1.2.2 t2.2.2⟩

theorem evTo_refl {σ : PState} (hinv : SessionInv σ) : EvTo σ σ :=
  ⟨hinv, heapKindsLE_refl σ, Nat.le_refl _⟩

mutual
theorem parse_item_ev (fs : List Factory) (k : PKey) (v : ADoc) (sid : Nat) (path : String)
    (rel : Option String) (σ : PState) (r : Val) (σ' : PState) (hf : FacOk fs)
    (hinv : SessionInv σ) (h : parse_item fs k v sid path rel σ = .ok (r, σ')) : EvTo σ σ' := by
  cases v with
  | anone =>
    have h' : Except.ok (ε := Err) ((Val.vnone : Val), σ) = .ok (r, σ') := h
    cases h'
    exact evTo_refl hinv
  | aint n =>
    have h' : Except.ok (ε := Err) ((Val.vint n : Val), σ) = .ok (r, σ') := h
    cases h'
    exact evTo_refl hinv
  | astr s =>
    simp only [parse_item] at h
    obtain ⟨σ₁, h1, h2⟩ := ebind_ok h
    have h2' : Except.ok (ε := Err) ((Val.vstr s : Val), σ₁) = .ok (r, σ') := h2
    cases h2'
    exact evTo_start hinv (resolve_step_stepTo h1)
  | adict a es =>
    simp only [parse_item, get_node_rel_path] at h
    rcases hns : new_state (joinPath path k) σ with ⟨sid₂, σ₁⟩
    rw [hns] at h
    obtain ⟨σ₂, h1, h⟩ := ebind_ok h
    have hstep₀ : StepTo σ σ₁ := by
      have hs := new_state_stepTo (joinPath path k) σ
      rw [hns] at hs
      exact hs
    have tripE : EvTo σ₁ σ₂ :=
      parse_entries_ev fs es sid₂ (joinPath path k) rel σ₁ σ₂ hf (hstep₀.1 hinv) h1
    have trip₁ : EvTo σ σ₂ := evTo_trans (evTo_start hinv hstep₀) tripE
    have hsid : sid₂ < σ₁.states.length := by
      have e1 : (new_state (joinPath path k) σ).1 = sid₂ := by rw [hns]
      have e2 : (new_state (joinPath path k) σ).2 = σ₁ := by rw [hns]
      rw [← e1, ← e2]
      simp [new_state, allocObj]
    by_cases hc : (getState σ₂ sid₂).unresolved = 0
    · rw [if_pos hc] at h
      rcases hgn : get_node fs (getState σ₂ sid₂).parsed (joinPath path k) σ₂ with ⟨entity, σ₃⟩
      rw [hgn] at h
      have hstepg : StepTo σ₂ σ₃ := by
        have hs := get_node_stepTo fs (getState σ₂ sid₂).parsed (joinPath path k) σ₂
        rw [hgn] at hs
        exact hs
      have trip₂ : EvTo σ σ₃ := evTo_step trip₁ hstepg
      have h₅ : (if truthy σ₃ entity then
            (if is_dict σ₃ entity then (do
                let y ← Except.ok (ε := Err) σ₃
                pure (entity, y))
              else (do
                let y ← register (joinPath path k) entity σ₃
                pure (entity, y)))
          else pure ((ADoc.adict a es).toVal, σ₃)) = .ok (r, σ') := h
      split at h₅
      · split at h₅
        · have h₆ : Except.ok (ε := Err) (entity, σ₃) = .ok (r, σ') := h₅
          cases h₆
          exact trip₂
        · rename_i hguard
          obtain ⟨σ₄, h3, h4⟩ := ebind_ok h₅
          have h4' : Except.ok (ε := Err) (entity, σ₄) = .ok (r, σ') := h4
          have h9 : (entity, σ₄) = (r, σ') := by injection h4'
          have h9b : σ' = σ₄ := (congrArg Prod.snd h9).symm
          subst h9b
          have hv : is_dict σ₃ entity = false := by
            cases hb : is_dict σ₃ entity
            · rfl
            · exact absurd hb hguard
          have hvalid : ∀ b, entity = .vref b → b < σ₃.heap.length := by
            intro b hb
            have he : (get_node fs (getState σ₂ sid₂).parsed (joinPath path k) σ₂).1 = entity := by
              rw [hgn]
            rcases get_node_result fs (getState σ₂ sid₂).parsed (joinPath path k) σ₂ with
              hres | ⟨f, hfmem, es', q, w, hw, hres⟩
            · rw [he, hb] at hres
              cases hres
              have hmem : getState σ₂ sid₂ ∈ σ₂.states := by
                apply getD_mem_of_lt
                exact Nat.lt_of_lt_of_le hsid tripE.2.2
              have hp : (getState σ₂ sid₂).parsed < σ₂.heap.length := trip₁.1.2 _ hmem
              have hh : σ₃.heap = σ₂.heap := by
                have := (get_node_ctl fs (getState σ₂ sid₂).parsed (joinPath path k) σ₂).1
                rw [hgn] at this
                exact this
              rw [hh]
              exact hp
            · rw [he, hb] at hres
              exact absurd hres.symm (hf f hfmem es' q w hw b)
          exact evTo_step trip₂ (register_stepTo hv hvalid h3)
      · have h₆ : Except.ok (ε := Err) ((ADoc.adict a es).toVal, σ₃) = .ok (r, σ') := h₅
        cases h₆
        exact trip₂
    · rw [if_neg hc] at h
      have h₅ : (if truthy { σ₂ with unresolvedStates := σ₂.unresolvedStates ++ [sid₂] }
            (Val.vnone : Val) then
            (if is_dict { σ₂ with unresolvedStates := σ₂.unresolvedStates ++ [sid₂] }
                (Val.vnone : Val) then (do
                let y ← Except.ok (ε := Err)
                    { σ₂ with unresolvedStates := σ₂.unresolvedStates ++ [sid₂] }
                pure ((Val.vnone : Val), y))
              else (do
                let y ← register (joinPath path k) (Val.vnone : Val)
                    { σ₂ with unresolvedStates := σ₂.unresolvedStates ++ [sid₂] }
                pure ((Val.vnone : Val), y)))
          else pure ((ADoc.adict a es).toVal,
            { σ₂ with unresolvedStates := σ₂.unresolvedStates ++ [sid₂] })) = .ok (r, σ') := h
      rw [if_neg (by simp [truthy])] at h₅
      have h₆ : Except.ok (ε := Err) ((ADoc.adict a es).toVal,
          { σ₂ with unresolvedStates := σ₂.unresolvedStates ++ [sid₂] }) = .ok (r, σ') := h₅
      cases h₆
      exact evTo_step trip₁ (stepTo_of_parts rfl rfl (heapKindsLE_of_eq rfl))
  | alist a its =>
    simp only [parse_item] at h
    obtain ⟨⟨vs, σ₁⟩, h1, h⟩ := ebind_ok h
    have trip₁ := parse_list_ev fs a its 0 sid path rel σ vs σ₁ hf hinv h1
    have h' : Except.ok (ε := Err) ((Val.vref (allocObj (.arr vs) σ₁).1 : Val),
        (allocObj (.arr vs) σ₁).2) = .ok (r, σ') := h
    cases h'
    exact evTo_step trip₁ (allocObj_stepTo (.arr vs) σ₁)
termination_by sizeOf v

theorem parse_entries_ev (fs : List Factory) (es : AEntries) (sid : Nat) (path : String)
    (rel : Option String) (σ σ' : PState) (hf : FacOk fs) (hinv : SessionInv σ)
    (h : parse_entries_go fs es sid path rel σ = .ok σ') : EvTo σ σ' := by
  cases es with
  | nil =>
    have h' : Except.ok (ε := Err) σ = .ok σ' := h
    cases h'
    exact evTo_refl hinv
  | cons k dv rest =>
    simp only [parse_entries_go] at h
    obtain ⟨⟨v₁, σ₁⟩, h1, h⟩ := ebind_ok h
    have trip₁ := parse_item_ev fs (.str k) dv sid path rel σ v₁ σ₁ hf hinv h1
    have h₅ : (if dictHas σ₁ (getState σ₁ sid).parsed (.str k) then
          parse_entries_go fs rest sid path rel σ₁
        else (do
          let y ← set_item σ₁ (.vref (getState σ₁ sid).parsed) (.str k)
              (validate_relative_import (validate_relative_path v₁ rel) rel)
          parse_entries_go fs rest sid path rel y)) = .ok σ' := h
    split at h₅
    · exact evTo_trans trip₁ (parse_entries_ev fs rest sid path rel σ₁ σ' hf trip₁.1 h₅)
    · obtain ⟨σ₂, h2, h3⟩ := ebind_ok h₅
      have trip₂ : EvTo σ σ₂ := evTo_step trip₁ (set_item_stepTo h2)
      exact evTo_trans trip₂ (parse_entries_ev fs rest sid path rel σ₂ σ' hf trip₂.1 h3)
termination_by sizeOf es

theorem parse_list_ev (fs : List Factory) (a : Nat) (its : AItems) (i : Nat) (sid : Nat)
    (path : String) (rel : Option String) (σ : PState) (vs : List Val) (σ' : PState)
    (hf : FacOk fs) (hinv : SessionInv σ)
    (h : parse_list_go fs a its i sid path rel σ = .ok (vs, σ')) : EvTo σ σ' := by
  cases its with
  | nil =>
    have h' : Except.ok (ε := Err) (([] : List Val), σ) = .ok (vs, σ') := h
    cases h'
    exact evTo_refl hinv
  | cons item rest =>
    simp only [parse_list_go] at h
    obtain ⟨⟨v₁, σ₁⟩, h1, h⟩ := ebind_ok h
    have trip₁ := parse_item_ev fs (.nat i) item sid path rel σ v₁ σ₁ hf hinv h1
    obtain ⟨σ₂, h2, h⟩ := ebind_ok h
    have trip₂ : EvTo σ σ₂ := evTo_step trip₁ (resolve_step_stepTo h2)
    obtain ⟨⟨vs₃, σ₃⟩, h3, h4⟩ := ebind_ok h
    have trip₃ : EvTo σ σ₃ :=
      evTo_trans trip₂ (parse_list_ev fs a rest (i + 1) sid path rel σ₂ vs₃ σ₃ hf trip₂.1 h3)
    have h4' : Except.ok (ε := Err) (v₁ :: vs₃, σ₃) = .ok (vs, σ') := h4
    cases h4'
    exact trip₃
termination_by sizeOf its
end

theorem parse_cfg_ev (fs : List Factory) (es : AEntries) (path : String) (rel : Option String)
    (σ : PState) (r : Val) (σ' : PState) (hf : FacOk fs) (hinv : SessionInv σ)
    (h : parse_cfg fs es path rel σ = .ok (r, σ')) : EvTo σ σ' := by
  unfold parse_cfg at h
  rcases hns : new_state path σ with ⟨sid₂, σ₁⟩
  rw [hns] at h
  obtain ⟨σ₂, h1, h⟩ := ebind_ok h
  have hstep₀ : StepTo σ σ₁ := by
    have hs := new_state_stepTo path σ
    rw [hns] at hs
    exact hs
  have trip₁ : EvTo σ σ₂ :=
    evTo_trans (evTo_start hinv hstep₀)
      (parse_entries_ev fs es sid₂ path rel σ₁ σ₂ hf (hstep₀.1 hinv) h1)
  split at h
  · have h' : Except.ok (ε := Err)
        ((get_node fs (getState σ₂ sid₂).parsed path σ₂).1,
         (get_node fs (getState σ₂ sid₂).parsed path σ₂).2) = .ok (r, σ') := h
    have h9 : ((get_node fs (getState σ₂ sid₂).parsed path σ₂).1,
        (get_node fs (getState σ₂ sid₂).parsed path σ₂).2) = (r, σ') := by injection h'
    have h9b : σ' = (get_node fs (getState σ₂ sid₂).parsed path σ₂).2 :=
      (congrArg Prod.snd h9).symm
    rw [h9b]
    exact evTo_step trip₁ (get_node_stepTo fs (getState σ₂ sid₂).parsed path σ₂)
  · have h' : Except.ok (ε := Err) ((Val.vnone : Val),
        { σ₂ with unresolvedStates := σ₂.unresolvedStates ++ [sid₂] }) = .ok (r, σ') := h
    have h9 : ((Val.vnone : Val),
        { σ₂ with unresolvedStates := σ₂.unresolvedStates ++ [sid₂] }) = (r, σ') := by injection h'
    have h9b : σ' = { σ₂ with unresolvedStates := σ₂.unresolvedStates ++ [sid₂] } :=
      (congrArg Prod.snd h9).symm
    rw [h9b]
    exact evTo_step trip₁ (stepTo_of_parts rfl rfl (heapKindsLE_of_eq rfl))


theorem splice_scan_ev {fs : List Factory} {pend : List Nat} {root : Val} {σ : PState}
    {r : List Nat × PState} (hinv : SessionInv σ) (h : splice_scan fs pend root σ = .ok r) :
    EvTo σ r.2 := by
  induction pend generalizing σ r with
  | nil =>
    have h' : Except.ok (ε := Err) (([] : List Nat), σ) = .ok r := h
    have h9 : (([] : List Nat), σ) = r := by injection h'
    rw [← h9]
    exact evTo_refl hinv
  | cons sid rest ih =>
    unfold splice_scan at h
    split at h
    · obtain ⟨parent, hp, h⟩ := ebind_ok h
      rcases hgn : get_node fs (getState σ sid).parsed (getState σ sid).path σ with ⟨node, σ₁⟩
      rw [hgn] at h
      obtain ⟨σ₂, hs, h⟩ := ebind_ok h
      have step₁ : StepTo σ σ₁ := by
        have hg := get_node_stepTo fs (getState σ sid).parsed (getState σ sid).path σ
        rw [hgn] at hg
        exact hg
      have step₂ : StepTo σ₁ σ₂ := set_item_stepTo hs
      have hinv₂ : SessionInv σ₂ := step₂.1 (step₁.1 hinv)
      exact evTo_trans (evTo_start hinv (stepTo_trans step₁ step₂)) (ih hinv₂ h)
    · obtain ⟨⟨remain, σ₁⟩, hs, h⟩ := ebind_ok h
      have h' : Except.ok (ε := Err) (sid :: remain, σ₁) = .ok r := h
      have h9 : (sid :: remain, σ₁) = r := by injection h'
      rw [← h9]
      exact ih (r := (remain, σ₁)) hinv hs

theorem fixpoint_loop_ev {fs : List Factory} {fuel : Nat} {u : List String} {root : Val}
    {σ σ' : PState} (hinv : SessionInv σ) (h : fixpoint_loop fs fuel u root σ = .ok σ') :
    EvTo σ σ' := by
  induction fuel generalizing σ with
  | zero => cases h
  | succ n ih =>
    unfold fixpoint_loop at h
    obtain ⟨⟨remain, σ₁⟩, h1, h⟩ := ebind_ok h
    have trip₁ : EvTo σ (remain, σ₁).2 := splice_scan_ev hinv h1
    have trip₂ : EvTo σ { σ₁ with unresolvedStates := remain } :=
      evTo_step trip₁ (stepTo_of_parts rfl rfl (heapKindsLE_of_eq rfl))
    dsimp only at h
    split at h
    · have h' : Except.ok (ε := Err) { σ₁ with unresolvedStates := remain } = .ok σ' := h
      cases h'
      exact trip₂
    · exact evTo_trans trip₂ (ih trip₂.1 h)

theorem mk_config_tree_ev {σ : PState} {v : Val} {r : Val × PState} (hinv : SessionInv σ)
    (h : mk_config_tree σ v = .ok r) : EvTo σ r.2 := by
  cases v with
  | vref a =>
    simp only [mk_config_tree] at h
    cases hh : σ.heap.get? a with
    | none => rw [hh] at h; cases h
    | some o =>
      cases o with
      | dict es =>
        rw [hh] at h
        have h' : Except.ok (ε := Err)
            ((Val.vref (allocObj (.dict es) σ).1 : Val), (allocObj (.dict es) σ).2) = .ok r := h
        have h9 : ((Val.vref (allocObj (.dict es) σ).1 : Val), (allocObj (.dict es) σ).2) = r := by
          injection h'
        rw [← h9]
        exact evTo_start hinv (allocObj_stepTo (.dict es) σ)
      | arr xs => rw [hh] at h; cases h
  | vnone => simp only [mk_config_tree] at h; cases h
  | vint n => simp only [mk_config_tree] at h; cases h
  | vstr s => simp only [mk_config_tree] at h; cases h
  | ventity t => simp only [mk_config_tree] at h; cases h

theorem sessionInv_init : SessionInv init_pstate := by
  constructor
  · intro q hq
    simp [init_pstate] at hq
  · intro st hst
    simp [init_pstate] at hst

mutual
theorem allocDoc_stepTo (d : Doc) (σ : PState) : StepTo σ (allocDoc d σ).2 := by
  cases d with
  | dnone => exact stepTo_refl σ
  | dint n => exact stepTo_refl σ
  | dstr s => exact stepTo_refl σ
  | ddict es =>
    rcases hae : allocEntries es σ with ⟨aes, σ₁⟩
    have hs := allocEntries_stepTo es σ
    rw [hae] at hs
    simp only [allocDoc, hae]
    exact stepTo_trans hs (allocObj_stepTo _ σ₁)
  | dlist its =>
    rcases hai : allocItems its σ with ⟨ats, σ₁⟩
    have hs := allocItems_stepTo its σ
    rw [hai] at hs
    simp only [allocDoc, hai]
    exact stepTo_trans hs (allocObj_stepTo _ σ₁)
termination_by sizeOf d

theorem allocEntries_stepTo (es : DEntries) (σ : PState) : StepTo σ (allocEntries es σ).2 := by
  cases es with
  | nil => exact stepTo_refl σ
  | cons k v t =>
    rcases had : allocDoc v σ with ⟨av, σ₁⟩
    have hs := allocDoc_stepTo v σ
    rw [had] at hs
    rcases hat : allocEntries t σ₁ with ⟨at₂, σ₂⟩
    have hs₂ := allocEntries_stepTo t σ₁
    rw [hat] at hs₂
    simp only [allocEntries, had, hat]
    exact stepTo_trans hs hs₂
termination_by sizeOf es

theorem allocItems_stepTo (its : DItems) (σ : PState) : StepTo σ (allocItems its σ).2 := by
  cases its with
  | nil => exact stepTo_refl σ
  | cons v t =>
    rcases had : allocDoc v σ with ⟨av, σ₁⟩
    have hs := allocDoc_stepTo v σ
    rw [had] at hs
    rcases hat : allocItems t σ₁ with ⟨at₂, σ₂⟩
    have hs₂ := allocItems_stepTo t σ₁
    rw [hat] at hs₂
    simp only [allocItems, had, hat]
    exact stepTo_trans hs hs₂
termination_by sizeOf its
end

/-- Claim C9: invariant of every parse session — only non-Mapping values are
ever stored in the Reference Registry index.  For every factory set whose
constructors return entity or scalar values (as the modelled built-in ones
do) and every successful parse, every value in the final resolver index is
not a dict: a subtree whose factory matching yields a plain Mapping is
never registered, so a Reference can only ever be satisfied by a
constructed, non-Mapping value. -/
theorem c9_registry_nondict (fs : List Factory) (d : DEntries) (p : String) (v : Val)
    (σ : PState) (hf : FacOk fs) (h : parse fs d p = .ok (v, σ)) :
    ∀ q ∈ σ.resolver.idx, is_dict σ q.2 = false := by
  unfold parse at h
  dsimp only at h
  rcases hae : allocEntries d init_pstate with ⟨aes, σa⟩
  rw [hae] at h
  have hstep₁ : StepTo init_pstate σa := by
    have hs := allocEntries_stepTo d init_pstate
    rw [hae] at hs
    exact hs
  have hstep₂ : StepTo σa (allocObj (Obj.dict aes.toPairs) σa).2 :=
    allocObj_stepTo (Obj.dict aes.toPairs) σa
  have hinva : SessionInv (allocObj (Obj.dict aes.toPairs) σa).2 :=
    hstep₂.1 (hstep₁.1 sessionInv_init)
  obtain ⟨⟨pv, σ₁⟩, h1, h⟩ := ebind_ok h
  have trip₁ : EvTo (allocObj (Obj.dict aes.toPairs) σa).2 σ₁ :=
    parse_cfg_ev fs aes "" _ _ pv σ₁ hf hinva h1
  obtain ⟨σ₂, h2, h⟩ := ebind_ok h
  have trip₂ : EvTo (allocObj (Obj.dict aes.toPairs) σa).2 σ₂ :=
    evTo_trans trip₁ (fixpoint_loop_ev trip₁.1 h2)
  split at h
  · have trip₃ := mk_config_tree_ev trip₂.1 h
    exact fun q hq => (trip₃.1.1 q hq).1
  · cases h

/-- Claim C9, witness: the invariant applied to a concrete parse that
registered one entity — the stored value is not a Mapping. -/
theorem c9_witness :
    parse [entity_factory_model "E9"] doc_c9 "p" = .ok (.vref 4, run_c9_state) ∧
    is_dict run_c9_state (.ventity "E9") = false := by
  have hfac : FacOk [entity_factory_model "E9"] := by
    intro f hfm es p w hb
    have hf1 : f = entity_factory_model "E9" := by simpa using hfm
    rw [hf1] at hb
    simp only [entity_factory_model] at hb
    have hw : (Val.ventity "E9" : Val) = w := by injection hb
    intro b hbw
    rw [← hw] at hbw
    cases hbw
  have h : parse [entity_factory_model "E9"] doc_c9 "p" = .ok (.vref 4, run_c9_state) := by
    simp [parse, init_pstate, doc_c9, run_c9_state, allocEntries, allocDoc, allocItems, allocObj,
      AEntries.toPairs, ADoc.toVal, AItems.toVals, get_node_rel_path, parse_cfg, new_state,
      parse_entries_go, parse_item, parse_list_go, resolve_step, resolve_once_ready, laterAppend,
      register, runCallbacks, runCallback, setAddrItem, set_item, getItem, bumpUnresolved,
      getState, dictHas, joinPath, keyStr, truthy, is_dict, get_node, get_node_go, dictEntriesAt,
      collections_update, validate_relative_path, validate_relative_import, collTruthy, collName,
      pathTail, splitPath, splitPathAux, hasSign, dropSign, assocSet, assocGet, assocRemove,
      fixpoint_loop, splice_scan, walk_parent, get_unresolved, mk_config_tree,
      entity_factory_model, path_factory_model, IMPORT_KEY, IMPORT_SIGN,
      Bind.bind, Except.bind, Pure.pure, Except.pure, Except.map]
  refine ⟨h, ?_⟩
  exact c9_registry_nondict [entity_factory_model "E9"] doc_c9 "p" (.vref 4) run_c9_state hfac h
    ("b", .ventity "E9") (by simp [run_c9_state])

/-- Claim C6, witness: two factories match the same node; the
later-registered one wins. -/
theorem c6_witness :
    get_node [path_factory_model "x" "OLD", path_factory_model "x" "NEW"] 0 "x" init_pstate =
      (.ventity "NEW", init_pstate) := by
  have h := (c6_lifo [path_factory_model "x" "OLD"] (path_factory_model "x" "NEW") 0 "x"
    init_pstate).2
  rw [show [path_factory_model "x" "OLD", path_factory_model "x" "NEW"] =
    [path_factory_model "x" "OLD"] ++ [path_factory_model "x" "NEW"] from rfl, h]
  simp [path_factory_model, collections_update, collTruthy, dictEntriesAt, init_pstate, truthy]

/-- Claim C8, witness: the forward-reference property at a concrete entity. -/
theorem c8_witness :
    resultRead (parse [entity_factory_model "W8"] doc_c8f "p") [.str "a", .str "x"] =
      some (.ventity "W8") :=
  (c8_forward_reference "W8").1
